import Mathlib

/-!
Verification of the cross-source claim-corroboration engine of the
`searchagent` repository: the birth-year, death-year/alive-status and
nationality verification pipelines
(`services/birthfinder/run_full_pipeline_verify_v2.py`,
`services/deathfinder/run_pipeline_verify.py`,
`services/nationalityfinder/run_pipeline_verify.py`) and the domain
normalizer (`services/birthfinder/select_birth_chunks_embeddings.py`).

The Python code is embedded shallowly: Python dicts (which preserve
insertion order) become association lists, Python sets used only for
membership tests become duplicate-free lists, mutation becomes explicit
state passing, and the external LLM extractor becomes per-candidate input
data (each candidate record carries the already-parsed extractor output,
matching the engine boundary: the extractor is an external capability).
-/

namespace SearchAgent

/-- Python's substring test `needle in hay`, on the character list of `hay`. -/
def strInAux (needle : List Char) : List Char → Bool
  | [] => needle.isPrefixOf []
  | c :: rest => needle.isPrefixOf (c :: rest) || strInAux needle rest

/-- Python's substring test `needle in hay` for strings. -/
def strIn (needle hay : String) : Bool :=
  strInAux needle.toList hay.toList

/-- ASCII lower-casing, modelling Python's `str.lower` (the pipelines only
ever lower-case ASCII URLs/keywords, so the ASCII fragment is faithful). -/
def pyLower (s : String) : String :=
  ⟨s.toList.map Char.toLower⟩

/-- Python's `max` over a non-empty list of naturals (every call site in the
source guards against the empty list, on which Python `max` would raise). -/
def pyMax : List Nat → Nat
  | [] => 0
  | x :: xs => xs.foldl Nat.max x

/-- Python's `min(gen, default=999)`: 999 on the empty list, the minimum
otherwise (not clamped). Mirrors `min((s.get("quality_rank", 999) ...), default=999)`. -/
def pyMin999 : List Nat → Nat
  | [] => 999
  | x :: xs => xs.foldl Nat.min x

/-- `list(dict.fromkeys(l))`-style deduplication keeping the first
occurrence of each element; one concrete realisation of the iteration
order of a Python `set` built from `l`. -/
def dedupFirstAux (seen : List String) : List String → List String
  | [] => []
  | x :: rest =>
    if seen.contains x then dedupFirstAux seen rest
    else x :: dedupFirstAux (x :: seen) rest

/-- Duplicate-free list of the elements of `l`, first occurrences first. -/
def pyDedupFirst (l : List String) : List String :=
  dedupFirstAux [] l

/-! ## Ledger data model

Shared between the birthfinder and deathfinder pipelines, whose ledger
code is line-for-line identical (`run_full_pipeline_verify_v2.py` lines
240-258, `run_pipeline_verify.py` lines 160-175). A ledger maps a year to
`{"count": int, "domains": set, "sources": list}`; the Python dict is an
insertion-ordered association list here, and the `domains` set is a
duplicate-free list used only for membership (order never observed). -/

/-- One evidence record appended to `sources` (a Python dict with keys
`url`, `chunk_index`, `domain`, `evidence_type`, `quality_rank`). -/
structure Source where
  url : String
  chunkIndex : Nat
  domain : String
  evidenceType : String
  qualityRank : Nat
deriving DecidableEq, Repr

/-- A per-year ledger entry: `{"count": .., "domains": .., "sources": ..}`. -/
structure Entry where
  count : Nat
  domains : List String
  sources : List Source
deriving DecidableEq, Repr

/-- `year_ledgers`: an insertion-ordered Python dict keyed by year. -/
abbrev Ledgers := List (Nat × Entry)

/-- `year_ledgers.get(y)`: first (unique) entry with key `y`. -/
def lookupL : Ledgers → Nat → Option Entry
  | [], _ => none
  | (y', e) :: rest, y => if y' == y then some e else lookupL rest y

/-- The independent-domain count currently recorded for `y` (0 if absent). -/
def countOf (L : Ledgers) (y : Nat) : Nat :=
  (lookupL L y).elim 0 (·.count)

/-- The recorded sources for `y` (empty if absent). -/
def sourcesOf (L : Ledgers) (y : Nat) : List Source :=
  (lookupL L y).elim [] (·.sources)

/-- The mutation an accepted claim performs on one entry: bump
`count`/`domains` iff the domain is new, then append the source
(v2 lines 248-258 / deathfinder lines 166-175). -/
def bumpEntry (e : Entry) (src : Source) : Entry :=
  let e :=
    if e.domains.contains src.domain then e
    else { e with count := e.count + 1, domains := e.domains ++ [src.domain] }
  { e with sources := e.sources ++ [src] }

/-- Record one accepted claim for year `y`: create the entry if the key is
absent (Python dicts append new keys at the end), then apply `bumpEntry`.
Fuses `year_ledgers[year] = {...}` (v2 lines 240-245) with the two
mutations that follow it. -/
def recordYear : Ledgers → Nat → Source → Ledgers
  | [], y, src => [(y, bumpEntry ⟨0, [], []⟩ src)]
  | (y', e) :: rest, y, src =>
    if y' == y then (y', bumpEntry e src) :: rest
    else (y', e) :: recordYear rest y src

/-- `max(v["count"] for v in year_ledgers.values())`. -/
def maxCount (L : Ledgers) : Nat :=
  pyMax (L.map (·.2.count))

/-- `[y for y, v in year_ledgers.items() if v["count"] == max_count]`. -/
def topYears (L : Ledgers) (maxC : Nat) : List Nat :=
  (L.filter (fun p => p.2.count == maxC)).map (·.1)

end SearchAgent

namespace SearchAgent.Birth

/-! ## Birthfinder pipeline (`run_full_pipeline_verify_v2.py`) -/

/-- `evidence_type_from_text` (lines 56-64). The third branch keeps
Python's operator precedence: `" births" in t or ("births" in t and
"category" in t)`. -/
def evidence_type_from_text (text : String) : String :=
  let t := pyLower text
  if strIn "date of birth" t || strIn "place and date of birth" t then "born-field"
  else if strIn "born" t || strIn "née" t || strIn "né " t || strIn " b. " t then "born-narrative"
  else if strIn " births" t || (strIn "births" t && strIn "category" t) then "category"
  else "other"

/-- `quality_rank` (lines 66-74): lower is better; unknown tags rank 4. -/
def quality_rank (evidenceType : String) : Nat :=
  if evidenceType = "born-field" then 0
  else if evidenceType = "born-narrative" then 1
  else if evidenceType = "other" then 2
  else if evidenceType = "category" then 3
  else 4

/-- `min(s.get("quality_rank", 999) for s in sources, default=999)` for the
sources of year `y` in `L` (the body of the tie-break loop, line 94). -/
def bestQofYear (L : Ledgers) (y : Nat) : Nat :=
  pyMin999 ((sourcesOf L y).map (·.qualityRank))

/-- `winner_by_quality` (lines 76-98): on a count tie, pick the first
ledger year (Python dict iteration order = insertion order) achieving the
lowest best quality; `None` on an empty ledger. -/
def winner_by_quality (L : Ledgers) : Option Nat :=
  if L.isEmpty then none
  else
    let maxC := maxCount L
    let top := topYears L maxC
    if top.length == 1 then top.head?
    else
      (top.foldl
        (fun (acc : Option Nat × Nat) y =>
          let q := bestQofYear L y
          if q < acc.2 then (some y, q) else acc)
        (none, 999)).1

/-- One retrieved evidence candidate, together with the (external)
extractor's already-parsed verdict on its chunk: `contains` and `year`
are the result of `parse_birth_prompt_output` on the prompt output, and
`chunkKnown` says whether `chunk_map.get(chunk_id)` succeeds. -/
structure Cand where
  personName : String
  chunkKnown : Bool
  domain : String
  url : String
  chunkIndex : Nat
  text : String
  contains : Bool
  year : Option Nat
deriving DecidableEq, Repr

/-- `counts = {"match": 0, "partial": 0, "none": 0, "conflict": 0}`
(line 205); only the `"none"` bucket is ever incremented by the code. -/
structure Counts where
  cntMatch : Nat
  cntPartial : Nat
  cntNone : Nat
  cntConflict : Nat
deriving DecidableEq, Repr

/-- State returned by the scan loop: final ledgers, counts, `scanned`,
the number of extractor invocations, and the early-stop winner (set iff
the loop exited through the quorum `break`, lines 260-265). -/
structure LoopOut where
  ledgers : Ledgers
  counts : Counts
  scanned : Nat
  calls : Nat
  earlyWinner : Option Nat
deriving DecidableEq, Repr

/-- The scan loop `for c in candidates[:max_scans]` (lines 211-265),
truncation applied by the caller. `calls` counts invocations of
`run_birth_prompt_on_chunk`; a candidate missing from the chunk index is
skipped after `scanned += 1` without an extractor call. -/
def scanLoop : List Cand → Ledgers → Counts → Nat → Nat → LoopOut
  | [], L, cnt, s, calls => ⟨L, cnt, s, calls, none⟩
  | c :: rest, L, cnt, s, calls =>
    let s := s + 1
    if c.chunkKnown = false then scanLoop rest L cnt s calls
    else
      let calls := calls + 1
      if c.contains = false then
        scanLoop rest L { cnt with cntNone := cnt.cntNone + 1 } s calls
      else
        match c.year with
        | none => scanLoop rest L { cnt with cntNone := cnt.cntNone + 1 } s calls
        | some y =>
          let et := evidence_type_from_text c.text
          let qr := quality_rank et
          let L' := recordYear L y ⟨c.url, c.chunkIndex, c.domain, et, qr⟩
          if 2 ≤ countOf L' y then ⟨L', cnt, s, calls, some y⟩
          else scanLoop rest L' cnt s calls

/-- `runner_up_years` entries (lines 299-303). -/
structure RunnerUp where
  year : Nat
  count : Nat
  sampleSource : Option Source
deriving DecidableEq, Repr

/-- The output record written per person (lines 305-315). -/
structure Result where
  person_name : String
  birth_year : Option Nat
  verified : Nat
  corroboration_outcome : String
  corroboration_attempts : Nat
  counts : Counts
  winner_year : Option Nat
  winner_sources : List Source
  runner_up_years : List RunnerUp
deriving DecidableEq, Repr

/-- Outcome classification and result assembly (lines 260-315): the early
`break` path, then the `for`-`else` post-hoc decision, then the summary
lists shared by both paths. -/
def decide_outcome (person : String) (o : LoopOut) : Result :=
  let wov :=
    match o.earlyWinner with
    | some y => (some y, if o.ledgers.length == 1 then "verified" else "conflict_resolved", 2)
    | none =>
      if o.ledgers.isEmpty then (none, "no_evidence", 0)
      else
        let maxC := maxCount o.ledgers
        let top := topYears o.ledgers maxC
        if 2 ≤ maxC ∧ top.length == 1 then
          (top.head?, if o.ledgers.length == 1 then "verified" else "conflict_resolved", 2)
        else if o.ledgers.length == 1 then
          ((o.ledgers.head?).map Prod.fst, "no_corroboration", 1)
        else
          match winner_by_quality o.ledgers with
          | some w =>
            if 2 ≤ countOf o.ledgers w then (some w, "conflict_resolved", 2)
            else (some w, "conflict_inconclusive", 1)
          | none => (none, "conflict_inconclusive", 1)
  let winner := wov.1
  let winnerSources :=
    match winner with
    | some y => sourcesOf o.ledgers y
    | none => []
  let runnerUps :=
    (o.ledgers.filter (fun p => winner = none ∨ ¬ some p.1 = winner)).map
      (fun p => RunnerUp.mk p.1 p.2.count p.2.sources.head?)
  { person_name := person
    birth_year := winner
    verified := wov.2.2
    corroboration_outcome := wov.2.1
    corroboration_attempts := o.scanned
    counts := o.counts
    winner_year := winner
    winner_sources := winnerSources
    runner_up_years := runnerUps }

/-- The per-person no-candidates record (lines 186-197). -/
def emptyResult (person : String) : Result :=
  { person_name := person, birth_year := none, verified := 0
    corroboration_outcome := "no_evidence", corroboration_attempts := 0
    counts := ⟨0, 0, 0, 0⟩, winner_year := none, winner_sources := []
    runner_up_years := [] }

/-- The verification core of `main` from the person filter onward
(lines 183-315): filter candidates to the person, emit the no-evidence
record if none remain, otherwise scan at most `maxScans` and classify. -/
def runVerify (maxScans : Nat) (person : String) (cands : List Cand) : Result :=
  let cands := cands.filter (·.personName == person)
  if cands.isEmpty then emptyResult person
  else decide_outcome person (scanLoop (cands.take maxScans) [] ⟨0, 0, 0, 0⟩ 0 0)

end SearchAgent.Birth

namespace SearchAgent.Death

/-! ## Deathfinder pipeline (`run_pipeline_verify.py`) -/

/-- `evidence_type_from_text` (lines 34-42), death variant. -/
def evidence_type_from_text (text : String) : String :=
  let t := pyLower text
  if strIn "obituary" t || strIn "memorial" t then "obituary"
  else if strIn "died" t || strIn "death" t || strIn " d. " t then "death-narrative"
  else if strIn "current" t || strIn "serves as" t || strIn "is the" t then "alive-current"
  else "other"

/-- `quality_rank` (lines 44-51), death variant; unknown tags rank 3. -/
def quality_rank (evidenceType : String) : Nat :=
  if evidenceType = "obituary" then 0
  else if evidenceType = "death-narrative" then 1
  else if evidenceType = "alive-current" then 1
  else if evidenceType = "other" then 2
  else 3

/-- The year-resolution logic of `parse_death_prompt_output` (lines 53-79)
above the regex layer: `yearField` is the `death_year:` field match
(`none` when the field is absent or `null`) and `textYear` the first
`YEAR_RE` match anywhere in the text, both checked against 1600-2099;
the text fallback applies only to a `deceased` status. -/
def resolveDeathYear (status : String) (yearField textYear : Option Nat) : Option Nat :=
  let year :=
    match yearField with
    | some y => if 1600 ≤ y ∧ y ≤ 2099 then some y else none
    | none => none
  match year with
  | some y => some y
  | none =>
    if status = "deceased" then
      match textYear with
      | some y => if 1600 ≤ y ∧ y ≤ 2099 then some y else none
      | none => none
    else none

/-- Python truthiness of the parsed year (`if status == "deceased" and year:`
and `if winner_year else []`): `None` and `0` are falsy. -/
def yearTruthy : Option Nat → Bool
  | none => false
  | some y => y != 0

/-- An `alive_signals` record (lines 180-185). -/
structure AliveSig where
  url : String
  chunkIndex : Nat
  domain : String
  evidenceType : String
deriving DecidableEq, Repr

/-- One retrieved candidate with the regex-level components of the
extractor output: `status` is the `status:` match (defaulted to
`"unknown"` by the parser when absent), `yearField`/`textYear` as in
`resolveDeathYear`. -/
structure Cand where
  personName : String
  chunkKnown : Bool
  domain : String
  url : String
  chunkIndex : Nat
  text : String
  status : String
  yearField : Option Nat
  textYear : Option Nat
deriving DecidableEq, Repr

/-- The scan loop `for c in candidates[:max_scans]` (lines 140-187):
record deceased-with-year claims in the year ledger with early stop at an
independent-domain count of 2, collect alive signals, ignore the rest. -/
def scanLoop : List Cand → Ledgers → List AliveSig → Nat → (Ledgers × List AliveSig × Nat)
  | [], L, alive, s => (L, alive, s)
  | c :: rest, L, alive, s =>
    let s := s + 1
    if c.chunkKnown = false then scanLoop rest L alive s
    else
      let etype := evidence_type_from_text c.text
      let qrank := quality_rank etype
      let year := resolveDeathYear c.status c.yearField c.textYear
      if c.status = "deceased" ∧ yearTruthy year = true then
        let y := year.getD 0
        let L' := recordYear L y ⟨c.url, c.chunkIndex, c.domain, etype, qrank⟩
        if 2 ≤ countOf L' y then (L', alive, s)
        else scanLoop rest L' alive s
      else if c.status = "alive" then
        scanLoop rest L (alive ++ [⟨c.url, c.chunkIndex, c.domain, etype⟩]) s
      else scanLoop rest L alive s

/-- The output record written per person (lines 221-230). -/
structure Result where
  person_name : String
  status : String
  death_year : Option Nat
  verified : Nat
  corroboration_outcome : String
  scanned : Nat
  death_year_sources : List Source
  alive_signals : List AliveSig
deriving DecidableEq, Repr

/-- Outcome resolution and result assembly (lines 189-230): any recorded
death year makes the person `deceased` (top insertion-order year at the
maximal count); otherwise alive signals decide; otherwise `unknown`. -/
def decide_outcome (person : String) (L : Ledgers) (alive : List AliveSig)
    (scanned : Nat) : Result :=
  let swv :=
    if L.isEmpty = false then
      let maxC := maxCount L
      let top := topYears L maxC
      if 2 ≤ maxC then ("deceased", top.headD 0, true, 2, "verified")
      else ("deceased", top.headD 0, true, 1, "no_corroboration")
    else if alive.isEmpty = false then
      if 2 ≤ (pyDedupFirst (alive.map (·.domain))).length then
        ("alive", 0, false, 2, "verified")
      else ("alive", 0, false, 1, "no_corroboration")
    else ("unknown", 0, false, 0, "no_evidence")
  let finalStatus := swv.1
  let winner : Option Nat := if swv.2.2.1 then some swv.2.1 else none
  { person_name := person
    status := finalStatus
    death_year := winner
    verified := swv.2.2.2.1
    corroboration_outcome := swv.2.2.2.2
    scanned := scanned
    death_year_sources := if yearTruthy winner then sourcesOf L (winner.getD 0) else []
    alive_signals := if finalStatus = "alive" then alive else [] }

/-- The per-person no-candidates record (lines 120-132); the source dict
omits the two provenance lists, rendered here as empty lists. -/
def emptyResult (person : String) : Result :=
  { person_name := person, status := "unknown", death_year := none
    verified := 0, corroboration_outcome := "no_evidence", scanned := 0
    death_year_sources := [], alive_signals := [] }

/-- The verification core of `main` from the person filter onward
(lines 117-230). -/
def runVerify (maxScans : Nat) (person : String) (cands : List Cand) : Result :=
  let cands := cands.filter (·.personName == person)
  if cands.isEmpty then emptyResult person
  else
    let out := scanLoop (cands.take maxScans) [] [] 0
    decide_outcome person out.1 out.2.1 out.2.2

end SearchAgent.Death

namespace SearchAgent.Natl

/-! ## Nationalityfinder pipeline (`nationalityfinder/run_pipeline_verify.py`)

`parse_nationality_prompt_output` (lines 12-26) ends with
`nationalities = list(set(codes))`: the `set` iteration order of CPython
strings depends on the per-process hash seed, so the pipeline is
parameterised here by `ord`, the function realising that iteration order
(`validOrd` below captures exactly what Python guarantees about it). -/

/-- A nationality `sources` record (lines 117-121): no evidence typing. -/
structure NSource where
  url : String
  chunkIndex : Nat
  domain : String
deriving DecidableEq, Repr

/-- A per-code ledger entry (lines 108-113). -/
structure NEntry where
  count : Nat
  domains : List String
  sources : List NSource
deriving DecidableEq, Repr

/-- `nationality_ledgers`: insertion-ordered dict keyed by ISO code. -/
abbrev NLedgers := List (String × NEntry)

/-- `nationality_ledgers.get(code)`. -/
def lookupN : NLedgers → String → Option NEntry
  | [], _ => none
  | (c', e) :: rest, c => if c' == c then some e else lookupN rest c

/-- Per-entry mutation for an accepted code (lines 114-121). -/
def bumpN (e : NEntry) (src : NSource) : NEntry :=
  let e :=
    if e.domains.contains src.domain then e
    else { e with count := e.count + 1, domains := e.domains ++ [src.domain] }
  { e with sources := e.sources ++ [src] }

/-- Record one accepted code (lines 107-121), creating the entry at the
end of the dict when the key is new. -/
def recordNat : NLedgers → String → NSource → NLedgers
  | [], c, src => [(c, bumpN ⟨0, [], []⟩ src)]
  | (c', e) :: rest, c, src =>
    if c' == c then (c', bumpN e src) :: rest
    else (c', e) :: recordNat rest c src

/-- `for nat in nationalities: ...` (lines 107-121): record every code of
one candidate against the same source record. -/
def recordAllNat (L : NLedgers) (codes : List String) (src : NSource) : NLedgers :=
  codes.foldl (fun L c => recordNat L c src) L

/-- A property of the Python `set` iteration order used by
`list(set(codes))`: the result enumerates each distinct element exactly
once, in some order. -/
def validOrd (ord : List String → List String) : Prop :=
  ∀ l : List String, (ord l).Nodup ∧ ∀ x, x ∈ ord l ↔ x ∈ l

/-- One retrieved candidate with the regex-level extractor output:
`found` is the `nationalities_found:` flag, `codes` the raw
`re.findall(r'"([A-Z]{3})"', ...)` result (possibly with duplicates;
empty when the `nationalities: [...]` group is absent). -/
structure Cand where
  personName : String
  chunkKnown : Bool
  domain : String
  url : String
  chunkIndex : Nat
  found : Bool
  codes : List String
deriving DecidableEq, Repr

/-- The scan loop `for c in candidates[:max_scans]` (lines 86-124):
record all codes of each candidate, then `break` as soon as any code's
independent-domain count reaches 2. -/
def scanLoop (ord : List String → List String) :
    List Cand → NLedgers → Nat → (NLedgers × Nat)
  | [], L, s => (L, s)
  | c :: rest, L, s =>
    let s := s + 1
    if c.chunkKnown = false then scanLoop ord rest L s
    else
      let nationalities := ord c.codes
      if c.found = false ∨ nationalities.isEmpty then scanLoop ord rest L s
      else
        let L' := recordAllNat L nationalities ⟨c.url, c.chunkIndex, c.domain⟩
        if L'.any (fun p => 2 ≤ p.2.count) then (L', s)
        else scanLoop ord rest L' s

/-- `nationality_details` values (lines 146-152). -/
structure NDetail where
  count : Nat
  sources : List NSource
deriving DecidableEq, Repr

/-- The output record written per person (lines 139-153). -/
structure Result where
  person_name : String
  nationalities : List String
  unverified_nationalities : List String
  verified : Nat
  corroboration_outcome : String
  scanned : Nat
  nationality_details : List (String × NDetail)
deriving DecidableEq, Repr

/-- Set-inclusive outcome classification and result assembly
(lines 126-153). -/
def decide_outcome (person : String) (L : NLedgers) (scanned : Nat) : Result :=
  let verifiedNats := (L.filter (fun p => 2 ≤ p.2.count)).map (·.1)
  let unverifiedNats := (L.filter (fun p => p.2.count == 1)).map (·.1)
  let vo :=
    if verifiedNats.isEmpty = false then (2, "verified")
    else if unverifiedNats.isEmpty = false then (1, "partial")
    else (0, "no_evidence")
  { person_name := person
    nationalities := verifiedNats
    unverified_nationalities := unverifiedNats
    verified := vo.1
    corroboration_outcome := vo.2
    scanned := scanned
    nationality_details := L.map (fun p => (p.1, NDetail.mk p.2.count p.2.sources)) }

/-- The per-person no-candidates record (lines 67-79). -/
def emptyResult (person : String) : Result :=
  { person_name := person, nationalities := [], unverified_nationalities := []
    verified := 0, corroboration_outcome := "no_evidence", scanned := 0
    nationality_details := [] }

/-- The verification core of `main` from the person filter onward
(lines 64-153), parameterised by the set iteration order `ord`. -/
def runVerify (ord : List String → List String) (maxScans : Nat)
    (person : String) (cands : List Cand) : Result :=
  let cands := cands.filter (·.personName == person)
  if cands.isEmpty then emptyResult person
  else
    let out := scanLoop ord (cands.take maxScans) [] 0
    decide_outcome person out.1 out.2

end SearchAgent.Natl

namespace SearchAgent.Dom

/-! ## Domain normalizer (`select_birth_chunks_embeddings.py`, `domain_of`)

`domain_of` calls `urllib.parse.urlparse(url).netloc` inside
`try/except`. The netloc computation of CPython's `urlsplit` is embedded
below: strip leading C0-control/space characters, remove tab/CR/LF,
strip a syntactically valid `scheme:`, then — only if the remainder
starts with `//` — take everything up to the first `/`, `?` or `#`.
`urlsplit` raises `ValueError` on a netloc containing `[` without `]` or
vice versa ("Invalid IPv6 URL"); that exception path is the `none`
result. -/

/-- WHATWG C0-control-or-space class used by `urlsplit`'s initial lstrip. -/
def c0ControlOrSpace (c : Char) : Bool :=
  c.val ≤ 32

/-- `_UNSAFE_URL_BYTES_TO_REMOVE`: tab, CR and LF are deleted anywhere. -/
def removeUnsafe (l : List Char) : List Char :=
  l.filter (fun c => !(c = '\t' || c = '\r' || c = '\n'))

/-- `scheme_chars`: ASCII letters, digits and `+-.`. -/
def schemeChar (c : Char) : Bool :=
  c.isAlpha || c.isDigit || c = '+' || c = '-' || c = '.'

/-- Strip `scheme:` when the text before the first `:` is a non-empty run
of scheme characters (the `url.find(':')` branch of `urlsplit`). -/
def stripScheme (u : List Char) : List Char :=
  match u.findIdx? (· = ':') with
  | some i => if 0 < i ∧ (u.take i).all schemeChar then u.drop (i + 1) else u
  | none => u

/-- `_splitnetloc`: the netloc extends to the first `/`, `?` or `#`. -/
def splitNetloc (u : List Char) : List Char :=
  u.takeWhile (fun c => !(c = '/' || c = '?' || c = '#'))

/-- The `netloc` attribute of `urlparse(url)`; `none` models the
`ValueError` raised on a bracket-unbalanced (IPv6-malformed) netloc. -/
def urlparseNetloc (url : String) : Option String :=
  let u := removeUnsafe (url.toList.dropWhile c0ControlOrSpace)
  let u := stripScheme u
  if u.take 2 = ['/', '/'] then
    let netloc := splitNetloc (u.drop 2)
    if (netloc.contains '[' && !netloc.contains ']') ||
        (netloc.contains ']' && !netloc.contains '[') then none
    else some (String.mk netloc)
  else some ""

/-- `host.startswith("www.")`, computed on the character list. -/
def startsWithWww (s : String) : Bool :=
  "www.".toList.isPrefixOf s.toList

/-- `host[4:]`: drop the first four characters. -/
def drop4 (s : String) : String :=
  String.mk (s.toList.drop 4)

/-- `domain_of` (lines 21-26): lower-case the netloc, strip one leading
`www.`, and map the exception path to the empty string. -/
def domain_of (url : String) : String :=
  match urlparseNetloc url with
  | some netloc =>
    let host := pyLower netloc
    if startsWithWww host then drop4 host else host
  | none => ""

/-- Strip one leading `www.` from a host name. -/
def stripWww (s : String) : String :=
  if startsWithWww s then drop4 s else s

/-- The specification's description of the normalizer (spec §4.1): the
lower-cased host with a leading `www.` stripped, or the empty string on
any parse failure. Stated from the spec's words for comparison with the
source translation `domain_of`. -/
def domain_of_specModel (url : String) : String :=
  (urlparseNetloc url).elim "" (fun host => stripWww (pyLower host))

end SearchAgent.Dom

namespace SearchAgent

/-! ## Proof-side definitions -/

/-- The ledger-entry invariant maintained by every scan (spec §3):
`domains` is duplicate-free, `count` is its cardinality, and a domain is
in `domains` exactly when some recorded source carries it. -/
def LedgerInv (L : Ledgers) : Prop :=
  ∀ p ∈ L, p.2.domains.Nodup ∧ p.2.count = p.2.domains.length ∧
    ∀ d, d ∈ p.2.domains ↔ d ∈ p.2.sources.map Source.domain

/-- First-occurrence argmin: the running winner of `winner_by_quality`'s
fold once an initial candidate `y` has been installed. -/
def runMin (f : Nat → Nat) (y : Nat) : List Nat → Nat
  | [] => y
  | z :: rest => if f z < f y then runMin f z rest else runMin f y rest

end SearchAgent

namespace SearchAgent.Ex

/-! ## Concrete inputs used by counterexamples and witnesses -/

/-- Spec §8 Scenario B: `blog.com→1951, wiki.org→1950, other.org→1950`. -/
def scenB : List Birth.Cand :=
  [⟨"p", true, "blog.com", "u1", 0, "", true, some 1951⟩,
   ⟨"p", true, "wiki.org", "u2", 1, "", true, some 1950⟩,
   ⟨"p", true, "other.org", "u3", 2, "", true, some 1950⟩]

/-- A candidate whose `chunk_id` is missing from the chunk index. -/
def missingCand : Birth.Cand := ⟨"p", false, "x.com", "u0", 0, "", true, some 1950⟩

/-- A resolvable candidate with an extracted year. -/
def presentCand : Birth.Cand := ⟨"p", true, "a.com", "u1", 0, "", true, some 1950⟩

/-- A second resolvable candidate for the same year from another domain. -/
def presentCand2 : Birth.Cand := ⟨"p", true, "b.com", "u2", 1, "", true, some 1950⟩

/-- Death-pipeline input: two death years from one domain each (tied, no
quorum, no unique best) plus two distinct-domain alive assertions. -/
def deathMixed : List Death.Cand :=
  [⟨"p", true, "a.com", "u1", 0, "", "deceased", some 1950, none⟩,
   ⟨"p", true, "b.com", "u2", 1, "", "deceased", some 1960, none⟩,
   ⟨"p", true, "c.com", "u3", 2, "", "alive", none, none⟩,
   ⟨"p", true, "d.com", "u4", 3, "", "alive", none, none⟩]

/-- A `deceased` claim with no parseable year anywhere. -/
def deathNoYear : Death.Cand := ⟨"p", true, "a.com", "u", 0, "", "deceased", none, none⟩

/-- Two distinct-domain alive signals. -/
def aliveSigs : List Death.AliveSig := [⟨"u1", 0, "c.com", "other"⟩, ⟨"u2", 1, "d.com", "other"⟩]

/-- Nationality input: `FRA` reaches quorum on the second candidate; the
third candidate (carrying `ITA`) sits inside the scan budget. -/
def natQuorum : List Natl.Cand :=
  [⟨"p", true, "a.com", "u1", 0, true, ["FRA"]⟩,
   ⟨"p", true, "b.com", "u2", 1, true, ["FRA"]⟩,
   ⟨"p", true, "c.com", "u3", 2, true, ["ITA"]⟩]

/-- One candidate asserting two codes at once. -/
def natTwoCodes : List Natl.Cand := [⟨"p", true, "a.com", "u1", 0, true, ["FRA", "ITA"]⟩]

/-- A second admissible `set` iteration order: reversed first-occurrence
order (Python never promises which of the `n!` orders a hash seed yields). -/
def revDedup : List String → List String := fun l => (pyDedupFirst l).reverse

/-- A two-year ledger tied at count 1 with different best qualities. -/
def tieLedger : Ledgers :=
  [(1950, ⟨1, ["a.com"], [⟨"u1", 0, "a.com", "born-narrative", 1⟩]⟩),
   (1951, ⟨1, ["b.com"], [⟨"u2", 1, "b.com", "born-field", 0⟩]⟩)]

/-- An example evidence record. -/
def exSource : Source := ⟨"u", 0, "a.com", "other", 2⟩

end SearchAgent.Ex

namespace SearchAgent

/-! ## C3: Scenario B -/

/-- C3 counterexample: on Scenario B the pipeline stops after the third
candidate with `winner_year = 1950` and `scanned = 3` as the claim says,
but the early-stop branch labels the outcome `"conflict_resolved"` (two
years sit in the ledger at the moment of the quorum `break`, v2 line
263), not `"verified"` as the claim states. -/
theorem c3_scenarioB_outcome_not_verified :
    (Birth.runVerify 10 "p" Ex.scenB).winner_year = some 1950 ∧
    (Birth.runVerify 10 "p" Ex.scenB).corroboration_attempts = 3 ∧
    (Birth.runVerify 10 "p" Ex.scenB).corroboration_outcome = "conflict_resolved" ∧
    ¬ (Birth.runVerify 10 "p" Ex.scenB).corroboration_outcome = "verified" := by
  decide

/-- C3 amended: Scenario B — three candidates yielding 1951 from
`blog.com`, then 1950 from `wiki.org`, then 1950 from `other.org` — stops
after the third candidate and produces `corroboration_outcome =
"conflict_resolved"` (verification level 2), `winner_year = 1950`,
scanned count 3. -/
theorem c3_scenarioB_amended :
    (Birth.runVerify 10 "p" Ex.scenB).corroboration_outcome = "conflict_resolved" ∧
    (Birth.runVerify 10 "p" Ex.scenB).verified = 2 ∧
    (Birth.runVerify 10 "p" Ex.scenB).winner_year = some 1950 ∧
    (Birth.runVerify 10 "p" Ex.scenB).birth_year = some 1950 ∧
    (Birth.runVerify 10 "p" Ex.scenB).corroboration_attempts = 3 := by
  decide

/-! ## C7: candidates missing from the chunk index -/

/-- C7 counterexample: a candidate whose `chunk_id` is missing from the
chunk index is indeed skipped without an extractor call (`calls = 0`),
but `scanned += 1` runs before the `chunk_map.get` test (v2 lines
211-215), so it does count against `scanned_count`, and — because the
loop iterates `candidates[:max_scans]` — it consumes a budget slot: with
`max_scans = 1` a following resolvable candidate is never scanned. -/
theorem c7_missing_chunk_consumes_budget :
    (Birth.scanLoop [Ex.missingCand] [] ⟨0, 0, 0, 0⟩ 0 0).calls = 0 ∧
    (Birth.runVerify 1 "p" [Ex.missingCand]).corroboration_attempts = 1 ∧
    ¬ (Birth.runVerify 1 "p" [Ex.missingCand]).corroboration_attempts = 0 ∧
    (Birth.runVerify 1 "p" [Ex.missingCand, Ex.presentCand]).corroboration_outcome
      = "no_evidence" := by
  decide

/-- C7 amended: a candidate missing from the chunk index is skipped
without invoking the extractor and without touching ledger or tally
state, but it still increments `scanned_count` (and therefore occupies
one of the `max_scans` budget slots). -/
theorem c7_missing_chunk_step (c : Birth.Cand) (rest : List Birth.Cand)
    (L : Ledgers) (cnt : Birth.Counts) (s calls : Nat)
    (h : c.chunkKnown = false) :
    Birth.scanLoop (c :: rest) L cnt s calls = Birth.scanLoop rest L cnt (s + 1) calls := by
  simp [Birth.scanLoop, h]

/-- Witness for `c7_missing_chunk_step` at a concrete missing candidate. -/
theorem c7_missing_chunk_step_witness :
    Ex.missingCand.chunkKnown = false ∧
    Birth.scanLoop [Ex.missingCand] [] ⟨0, 0, 0, 0⟩ 0 0 =
      Birth.scanLoop [] [] ⟨0, 0, 0, 0⟩ 1 0 :=
  ⟨by decide, c7_missing_chunk_step Ex.missingCand [] [] ⟨0, 0, 0, 0⟩ 0 0 (by decide)⟩

/-! ## C1: nationality pipeline stops at quorum -/

/-- C1 counterexample: with three in-budget candidates (`max_scans = 3`)
where `FRA` reaches an independent-domain count of 2 on the second
candidate, the nationality scan stops at `scanned = 2`: the third
candidate is never scanned and its code `ITA` appears nowhere in the
result, contradicting "scanning continues until the scan budget is
exhausted" (the loop breaks as soon as any code reaches count ≥ 2,
nationalityfinder lines 123-124). -/
theorem c1_quorum_stops_nationality_scan :
    (Natl.runVerify pyDedupFirst 3 "p" Ex.natQuorum).scanned = 2 ∧
    ¬ (Natl.runVerify pyDedupFirst 3 "p" Ex.natQuorum).scanned = Ex.natQuorum.length ∧
    (Natl.runVerify pyDedupFirst 3 "p" Ex.natQuorum).nationalities = ["FRA"] ∧
    (Natl.runVerify pyDedupFirst 3 "p" Ex.natQuorum).unverified_nationalities = [] ∧
    ¬ "ITA" ∈ (Natl.runVerify pyDedupFirst 3 "p" Ex.natQuorum).nationality_details.map Prod.fst := by
  decide

/-- C1 amended: the nationality scan terminates early at quorum exactly
like the scalar pipelines: as soon as recording a candidate's codes
brings any code's independent-domain count to 2, the loop returns at
once, and the remaining candidates are never scanned (the result does
not depend on them). -/
theorem c1_nationality_early_stop (ord : List String → List String)
    (c : Natl.Cand) (rest : List Natl.Cand) (L : Natl.NLedgers) (s : Nat)
    (hk : c.chunkKnown = true) (hf : c.found = true)
    (hne : (ord c.codes).isEmpty = false)
    (hq : (Natl.recordAllNat L (ord c.codes) ⟨c.url, c.chunkIndex, c.domain⟩).any
      (fun p => 2 ≤ p.2.count) = true) :
    Natl.scanLoop ord (c :: rest) L s =
      (Natl.recordAllNat L (ord c.codes) ⟨c.url, c.chunkIndex, c.domain⟩, s + 1) ∧
    ∀ rest', Natl.scanLoop ord (c :: rest) L s = Natl.scanLoop ord (c :: rest') L s := by
  constructor
  · simp [Natl.scanLoop, hk, hf, hne, hq]
  · intro rest'
    simp [Natl.scanLoop, hk, hf, hne, hq]

/-- Witness for `c1_nationality_early_stop` at the quorum-reaching
candidate of `Ex.natQuorum`. -/
theorem c1_nationality_early_stop_witness :
    Natl.scanLoop pyDedupFirst [⟨"p", true, "b.com", "u2", 1, true, ["FRA"]⟩]
        [("FRA", ⟨1, ["a.com"], [⟨"u1", 0, "a.com"⟩]⟩)] 1 =
      (Natl.recordAllNat [("FRA", ⟨1, ["a.com"], [⟨"u1", 0, "a.com"⟩]⟩)]
        (pyDedupFirst ["FRA"]) ⟨"u2", 1, "b.com"⟩, 2) :=
  (c1_nationality_early_stop pyDedupFirst ⟨"p", true, "b.com", "u2", 1, true, ["FRA"]⟩ []
    [("FRA", ⟨1, ["a.com"], [⟨"u1", 0, "a.com"⟩]⟩)] 1
    (by decide) (by decide) (by decide) (by decide)).1

end SearchAgent

namespace SearchAgent

/-! ## C4: death pipeline resolution order -/

/-- C4 counterexample: two death years tied at independent-domain count 1
(no year reached quorum, no unique highest-count year) while two distinct
domains asserted "alive" — the claim requires final status `"alive"`, but
the code enters the alive branch only when the year ledger is empty
(deathfinder line 189: `if year_ledgers:`), so it reports `"deceased"`
with the first recorded top year. -/
theorem c4_death_years_beat_alive_signals :
    (Death.runVerify 10 "p" Ex.deathMixed).status = "deceased" ∧
    ¬ (Death.runVerify 10 "p" Ex.deathMixed).status = "alive" ∧
    maxCount (Death.scanLoop Ex.deathMixed [] [] 0).1 = 1 ∧
    (topYears (Death.scanLoop Ex.deathMixed [] [] 0).1
      (maxCount (Death.scanLoop Ex.deathMixed [] [] 0).1)).length = 2 ∧
    2 ≤ (pyDedupFirst (((Death.scanLoop Ex.deathMixed [] [] 0).2.1).map
      (·.domain))).length := by
  decide

/-- C4 amended: at termination the final status is `"deceased"` whenever
any death year was recorded at all (quorum, uniqueness and alive signals
notwithstanding); only with an empty year ledger is the status `"alive"`
when at least one alive signal exists (`verified = 2` exactly when the
alive signals span at least 2 distinct domains), and `"unknown"`
otherwise. -/
theorem c4_death_resolution_order (person : String) (L : Ledgers)
    (alive : List Death.AliveSig) (scanned : Nat) :
    ((Death.decide_outcome person L alive scanned).status = "deceased" ↔ ¬ L = []) ∧
    (L = [] → ((Death.decide_outcome person L alive scanned).status = "alive" ↔ ¬ alive = [])) ∧
    (L = [] → alive = [] → (Death.decide_outcome person L alive scanned).status = "unknown") ∧
    (L = [] → ¬ alive = [] →
      ((Death.decide_outcome person L alive scanned).verified = 2 ↔
        2 ≤ (pyDedupFirst (alive.map (·.domain))).length)) := by
  unfold Death.decide_outcome
  rcases L with _ | ⟨p, L'⟩
  · rcases alive with _ | ⟨a, alive'⟩
    · simp
    · by_cases hlen :
        2 ≤ (pyDedupFirst (a.domain :: alive'.map (fun x => x.domain))).length
      · simp [hlen]
      · simp [hlen]
  · by_cases hm : 2 ≤ maxCount (p :: L')
    · simp [hm]
    · simp [hm]

/-- Witness for `c4_death_resolution_order`: with an empty year ledger
and two distinct-domain alive signals the status is `"alive"`. -/
theorem c4_death_resolution_order_witness :
    (Death.decide_outcome "p" [] Ex.aliveSigs 4).status = "alive" ∧
    (Death.decide_outcome "p" [] Ex.aliveSigs 4).verified = 2 :=
  ⟨((c4_death_resolution_order "p" [] Ex.aliveSigs 4).2.1 rfl).mpr (by decide),
   ((c4_death_resolution_order "p" [] Ex.aliveSigs 4).2.2.2 rfl (by decide)).mpr (by decide)⟩

/-! ## C10: deceased claims without a parseable year -/

/-- C10: the year-resolution of `parse_death_prompt_output` only ever
yields years within 1600-2099; and a scanned candidate whose claim is
`deceased` with no parseable year updates neither the death-year ledger
nor the alive signals — the step is identical to scanning the same
candidate with status `"unknown"`, so the final result cannot
distinguish them, and no early stop can be triggered by it. -/
theorem c10_deceased_without_year_is_inert :
    (∀ status yearField textYear y,
      Death.resolveDeathYear status yearField textYear = some y → 1600 ≤ y ∧ y ≤ 2099) ∧
    (∀ (c : Death.Cand) rest L alive s, c.chunkKnown = true → c.status = "deceased" →
      Death.resolveDeathYear c.status c.yearField c.textYear = none →
      Death.scanLoop (c :: rest) L alive s = Death.scanLoop rest L alive (s + 1) ∧
      Death.scanLoop (c :: rest) L alive s =
        Death.scanLoop ({ c with status := "unknown" } :: rest) L alive s) := by
  constructor
  · intro status yearField textYear y h
    unfold Death.resolveDeathYear at h
    have hfb : ∀ o : Option Nat,
        (if status = "deceased" then
          (match o with
            | some yy => if 1600 ≤ yy ∧ yy ≤ 2099 then some yy else none
            | none => none)
          else none) = some y → 1600 ≤ y ∧ y ≤ 2099 := by
      intro o ho
      split at ho
      · rcases o with _ | yy
        · simp at ho
        · simp only at ho
          split at ho
          · obtain rfl : yy = y := by simpa using ho
            assumption
          · simp at ho
      · simp at ho
    rcases yearField with _ | yf
    · simp only at h
      exact hfb _ h
    · simp only at h
      by_cases hp : 1600 ≤ yf ∧ yf ≤ 2099
      · rw [if_pos hp] at h
        simp only at h
        obtain rfl : yf = y := by simpa using h
        exact hp
      · rw [if_neg hp] at h
        simp only at h
        exact hfb _ h
  · intro c rest L alive s hk hs hy
    rw [hs] at hy
    have hda : ¬ ("deceased" : String) = "alive" := by decide
    have hud : ¬ ("unknown" : String) = "deceased" := by decide
    have hua : ¬ ("unknown" : String) = "alive" := by decide
    have e1 : Death.scanLoop (c :: rest) L alive s = Death.scanLoop rest L alive (s + 1) := by
      simp [Death.scanLoop, hk, hs, hy, Death.yearTruthy, hda]
    have e2 : Death.scanLoop ({ c with status := "unknown" } :: rest) L alive s =
        Death.scanLoop rest L alive (s + 1) := by
      simp [Death.scanLoop, hk, hud, hua]
    exact ⟨e1, e1.trans e2.symm⟩

end SearchAgent

namespace SearchAgent

/-! ## C9: domain normalizer -/

/-- C9: for every input string `domain_of` agrees with the spec's
description — the lower-cased netloc with one leading `www.` stripped,
and the empty string on parse failure (the only raising path of
`urlparse`, a bracket-unbalanced netloc, is caught; the function is total
by construction). The closed conjuncts exhibit a malformed URL taking the
failure path and a well-formed URL taking the normalizing path. -/
theorem c9_domain_of_matches_spec :
    (∀ url, Dom.domain_of url = Dom.domain_of_specModel url) ∧
    Dom.urlparseNetloc "http://[" = none ∧
    Dom.domain_of "http://[" = "" ∧
    Dom.domain_of "HTTP://WWW.Example.COM/path" = "example.com" ∧
    Dom.domain_of "not a url" = "" := by
  refine ⟨fun url => ?_, by decide, by decide, by decide, by decide⟩
  unfold Dom.domain_of Dom.domain_of_specModel Dom.stripWww
  cases Dom.urlparseNetloc url <;> rfl

end SearchAgent

namespace SearchAgent

/-! ## Ledger lemmas -/

/-- Looking up the recorded key yields the bumped entry (a fresh empty
entry is bumped when the key was absent). -/
theorem lookupL_recordYear_self (L : Ledgers) (y : Nat) (src : Source) :
    lookupL (recordYear L y src) y =
      some (bumpEntry ((lookupL L y).getD ⟨0, [], []⟩) src) := by
  induction L with
  | nil => simp [recordYear, lookupL]
  | cons p rest ih =>
    obtain ⟨y', e⟩ := p
    by_cases hb : y' = y
    · subst hb
      simp [recordYear, lookupL]
    · simp only [recordYear, lookupL, beq_iff_eq, if_neg hb]
      exact ih

/-- Looking up any other key is unchanged by `recordYear`. -/
theorem lookupL_recordYear_other (L : Ledgers) (y : Nat) (src : Source)
    (z : Nat) (hz : ¬ z = y) :
    lookupL (recordYear L y src) z = lookupL L z := by
  have hyz : ¬ y = z := fun h => hz h.symm
  induction L with
  | nil => simp [recordYear, lookupL, beq_iff_eq, hyz]
  | cons p rest ih =>
    obtain ⟨y', e⟩ := p
    by_cases hb : y' = y
    · subst hb
      simp [recordYear, lookupL, beq_iff_eq, hyz]
    · by_cases hbz : y' = z
      · subst hbz
        simp [recordYear, lookupL, beq_iff_eq, hb]
      · simp only [recordYear, lookupL, beq_iff_eq, if_neg hb, if_neg hbz]
        exact ih

/-- `bumpEntry` never decreases the count. -/
theorem bumpEntry_count_le (e : Entry) (src : Source) :
    e.count ≤ (bumpEntry e src).count := by
  unfold bumpEntry
  by_cases hc : src.domain ∈ e.domains
  · simp [hc]
  · simp [hc]

/-- Counts are monotone under `recordYear`, for every key. -/
theorem countOf_recordYear_mono (L : Ledgers) (y : Nat) (src : Source) (z : Nat) :
    countOf L z ≤ countOf (recordYear L y src) z := by
  by_cases hz : z = y
  · subst hz
    rw [countOf, countOf, lookupL_recordYear_self]
    cases h : lookupL L z with
    | none => simp
    | some e => simpa [h] using bumpEntry_count_le e src
  · rw [countOf, countOf, lookupL_recordYear_other L y src z hz]

/-- `bumpEntry` preserves the per-entry invariant. -/
theorem bumpEntry_inv (e : Entry) (src : Source)
    (h1 : e.domains.Nodup) (h2 : e.count = e.domains.length)
    (h3 : ∀ d, d ∈ e.domains ↔ d ∈ e.sources.map Source.domain) :
    (bumpEntry e src).domains.Nodup ∧
    (bumpEntry e src).count = (bumpEntry e src).domains.length ∧
    ∀ d, d ∈ (bumpEntry e src).domains ↔ d ∈ (bumpEntry e src).sources.map Source.domain := by
  unfold bumpEntry
  by_cases hc : src.domain ∈ e.domains
  · refine ⟨by simpa [hc] using h1, by simpa [hc] using h2, fun d => ?_⟩
    simp only [hc, if_true, List.elem_iff.mpr hc, List.map_append, List.mem_append,
      List.map_cons, List.map_nil, List.mem_singleton]
    constructor
    · intro hd
      exact Or.inl ((h3 d).mp hd)
    · rintro (hd | rfl)
      · exact (h3 d).mpr hd
      · exact hc
  · refine ⟨?_, ?_, fun d => ?_⟩
    · simpa [hc, List.nodup_append] using h1
    · simp [hc, h2]
    · simp [hc, h3 d, or_comm]

/-- `recordYear` preserves the ledger invariant. -/
theorem LedgerInv_recordYear (L : Ledgers) (y : Nat) (src : Source)
    (h : LedgerInv L) : LedgerInv (recordYear L y src) := by
  induction L with
  | nil =>
    intro p hp
    simp only [recordYear, List.mem_singleton] at hp
    subst hp
    exact bumpEntry_inv _ _ (by simp) (by simp) (by simp)
  | cons q rest ih =>
    obtain ⟨y', e⟩ := q
    by_cases hb : y' = y
    · subst hb
      simp only [recordYear, beq_self_eq_true, if_pos]
      intro p hp
      rcases List.mem_cons.mp hp with rfl | hp
      · obtain ⟨i1, i2, i3⟩ := h (y', e) (List.mem_cons_self _ _)
        exact bumpEntry_inv e src i1 i2 i3
      · exact h _ (List.mem_cons_of_mem _ hp)
    · simp only [recordYear, beq_iff_eq, if_neg hb]
      intro p hp
      rcases List.mem_cons.mp hp with rfl | hp
      · exact h _ (List.mem_cons_self _ _)
      · exact ih (fun q hq => h q (List.mem_cons_of_mem _ hq)) p hp

/-- Under the invariant, the count equals the number of distinct domains
among the recorded sources. -/
theorem count_eq_dedup_sources (L : Ledgers) (h : LedgerInv L) :
    ∀ p ∈ L, p.2.count = ((p.2.sources.map Source.domain).dedup).length := by
  intro p hp
  obtain ⟨h1, h2, h3⟩ := h p hp
  have hfs : p.2.domains.toFinset = (p.2.sources.map Source.domain).toFinset := by
    ext d
    simp only [List.mem_toFinset]
    exact h3 d
  have hd1 : p.2.domains.length = p.2.domains.toFinset.card :=
    (List.toFinset_card_of_nodup h1).symm
  have hd2 : ((p.2.sources.map Source.domain).dedup).length =
      ((p.2.sources.map Source.domain).dedup).toFinset.card :=
    (List.toFinset_card_of_nodup (List.nodup_dedup _)).symm
  have hd3 : ((p.2.sources.map Source.domain).dedup).toFinset =
      (p.2.sources.map Source.domain).toFinset := by
    ext d
    simp
  rw [h2, hd1, hfs, hd2, hd3]

/-- The birth scan loop preserves the ledger invariant and never
decreases any count. -/
theorem birth_scanLoop_inv (cs : List Birth.Cand) :
    ∀ (L : Ledgers) (cnt : Birth.Counts) (s calls : Nat), LedgerInv L →
      LedgerInv (Birth.scanLoop cs L cnt s calls).ledgers ∧
      ∀ z, countOf L z ≤ countOf (Birth.scanLoop cs L cnt s calls).ledgers z := by
  induction cs with
  | nil => intro L cnt s calls h; exact ⟨h, fun z => le_refl _⟩
  | cons c rest ih =>
    intro L cnt s calls h
    by_cases hk : c.chunkKnown = false
    · simpa [Birth.scanLoop, hk] using ih L cnt (s + 1) calls h
    · have hk' : c.chunkKnown = true := by revert hk; cases c.chunkKnown <;> simp
      by_cases hc : c.contains = false
      · simpa [Birth.scanLoop, hk', hc] using
          ih L { cnt with cntNone := cnt.cntNone + 1 } (s + 1) (calls + 1) h
      · have hc' : c.contains = true := by revert hc; cases c.contains <;> simp
        cases hy : c.year with
        | none =>
          simpa [Birth.scanLoop, hk', hc', hy] using
            ih L { cnt with cntNone := cnt.cntNone + 1 } (s + 1) (calls + 1) h
        | some y =>
          have hrec := LedgerInv_recordYear L y
            ⟨c.url, c.chunkIndex, c.domain, Birth.evidence_type_from_text c.text,
              Birth.quality_rank (Birth.evidence_type_from_text c.text)⟩ h
          by_cases hq : 2 ≤ countOf (recordYear L y
              ⟨c.url, c.chunkIndex, c.domain, Birth.evidence_type_from_text c.text,
                Birth.quality_rank (Birth.evidence_type_from_text c.text)⟩) y
          · have heq : Birth.scanLoop (c :: rest) L cnt s calls =
                ⟨recordYear L y
                  ⟨c.url, c.chunkIndex, c.domain, Birth.evidence_type_from_text c.text,
                    Birth.quality_rank (Birth.evidence_type_from_text c.text)⟩,
                  cnt, s + 1, calls + 1, some y⟩ := by
              simp [Birth.scanLoop, hk', hc', hy, hq]
            rw [heq]
            exact ⟨hrec, fun z => countOf_recordYear_mono L y _ z⟩
          · have heq : Birth.scanLoop (c :: rest) L cnt s calls =
                Birth.scanLoop rest (recordYear L y
                  ⟨c.url, c.chunkIndex, c.domain, Birth.evidence_type_from_text c.text,
                    Birth.quality_rank (Birth.evidence_type_from_text c.text)⟩)
                  cnt (s + 1) (calls + 1) := by
              simp [Birth.scanLoop, hk', hc', hy, hq]
            rw [heq]
            obtain ⟨ha, hb⟩ := ih (recordYear L y
              ⟨c.url, c.chunkIndex, c.domain, Birth.evidence_type_from_text c.text,
                Birth.quality_rank (Birth.evidence_type_from_text c.text)⟩)
              cnt (s + 1) (calls + 1) hrec
            exact ⟨ha, fun z => le_trans (countOf_recordYear_mono L y _ z) (hb z)⟩

/-- The death scan loop preserves the ledger invariant and never
decreases any count. -/
theorem death_scanLoop_inv (cs : List Death.Cand) :
    ∀ (L : Ledgers) (alive : List Death.AliveSig) (s : Nat), LedgerInv L →
      LedgerInv (Death.scanLoop cs L alive s).1 ∧
      ∀ z, countOf L z ≤ countOf (Death.scanLoop cs L alive s).1 z := by
  induction cs with
  | nil => intro L alive s h; exact ⟨h, fun z => le_refl _⟩
  | cons c rest ih =>
    intro L alive s h
    by_cases hk : c.chunkKnown = false
    · simpa [Death.scanLoop, hk] using ih L alive (s + 1) h
    · have hk' : c.chunkKnown = true := by revert hk; cases c.chunkKnown <;> simp
      by_cases hs : c.status = "deceased"
      · by_cases ht : Death.yearTruthy (Death.resolveDeathYear "deceased" c.yearField c.textYear) = true
        · have hrec := LedgerInv_recordYear L
            ((Death.resolveDeathYear "deceased" c.yearField c.textYear).getD 0)
            ⟨c.url, c.chunkIndex, c.domain, Death.evidence_type_from_text c.text,
              Death.quality_rank (Death.evidence_type_from_text c.text)⟩ h
          by_cases hq : 2 ≤ countOf (recordYear L
              ((Death.resolveDeathYear "deceased" c.yearField c.textYear).getD 0)
              ⟨c.url, c.chunkIndex, c.domain, Death.evidence_type_from_text c.text,
                Death.quality_rank (Death.evidence_type_from_text c.text)⟩)
              ((Death.resolveDeathYear "deceased" c.yearField c.textYear).getD 0)
          · have heq : Death.scanLoop (c :: rest) L alive s =
                (recordYear L ((Death.resolveDeathYear "deceased" c.yearField c.textYear).getD 0)
                  ⟨c.url, c.chunkIndex, c.domain, Death.evidence_type_from_text c.text,
                    Death.quality_rank (Death.evidence_type_from_text c.text)⟩,
                  alive, s + 1) := by
              simp [Death.scanLoop, hk', hs, ht, hq]
            rw [heq]
            exact ⟨hrec, fun z => countOf_recordYear_mono L _ _ z⟩
          · have heq : Death.scanLoop (c :: rest) L alive s =
                Death.scanLoop rest
                  (recordYear L ((Death.resolveDeathYear "deceased" c.yearField c.textYear).getD 0)
                    ⟨c.url, c.chunkIndex, c.domain, Death.evidence_type_from_text c.text,
                      Death.quality_rank (Death.evidence_type_from_text c.text)⟩)
                  alive (s + 1) := by
              simp [Death.scanLoop, hk', hs, ht, hq]
            rw [heq]
            obtain ⟨ha, hb⟩ := ih (recordYear L
              ((Death.resolveDeathYear "deceased" c.yearField c.textYear).getD 0)
              ⟨c.url, c.chunkIndex, c.domain, Death.evidence_type_from_text c.text,
                Death.quality_rank (Death.evidence_type_from_text c.text)⟩)
              alive (s + 1) hrec
            exact ⟨ha, fun z => le_trans (countOf_recordYear_mono L _ _ z) (hb z)⟩
        · have hna : ¬ ("deceased" : String) = "alive" := by decide
          have heq : Death.scanLoop (c :: rest) L alive s = Death.scanLoop rest L alive (s + 1) := by
            simp [Death.scanLoop, hk', hs, ht, hna]
          rw [heq]
          exact ih L alive (s + 1) h
      · by_cases ha : c.status = "alive"
        · have heq : Death.scanLoop (c :: rest) L alive s =
              Death.scanLoop rest L (alive ++ [⟨c.url, c.chunkIndex, c.domain,
                Death.evidence_type_from_text c.text⟩]) (s + 1) := by
            simp [Death.scanLoop, hk', hs, ha]
          rw [heq]
          exact ih L _ (s + 1) h
        · have heq : Death.scanLoop (c :: rest) L alive s = Death.scanLoop rest L alive (s + 1) := by
            simp [Death.scanLoop, hk', hs, ha]
          rw [heq]
          exact ih L alive (s + 1) h

end SearchAgent

namespace SearchAgent

/-! ## C5: ledger counting invariants -/

/-- C5: at every point of a scan every ledger entry satisfies
`independent_domain_count = |domains_seen|` (with `domains_seen`
duplicate-free and matching the domains of the recorded sources), the
count equals — hence never exceeds — the number of distinct domains among
the entry's recorded sources, counts are non-decreasing as candidates
are recorded, and recording a repeat domain appends to `sources` without
changing the count. Stated for the shared `recordYear` operation and for
the birth and death scan loops that use it. -/
theorem c5_ledger_counting_invariant :
    (∀ (L : Ledgers) (y : Nat) (src : Source), LedgerInv L →
      LedgerInv (recordYear L y src) ∧
      (∀ z, countOf L z ≤ countOf (recordYear L y src) z) ∧
      ∀ p ∈ recordYear L y src,
        p.2.count = ((p.2.sources.map Source.domain).dedup).length) ∧
    (∀ (L : Ledgers) (y : Nat) (src : Source) (e : Entry),
      lookupL L y = some e → src.domain ∈ e.domains →
      countOf (recordYear L y src) y = countOf L y ∧
      sourcesOf (recordYear L y src) y = sourcesOf L y ++ [src]) ∧
    (∀ (cs : List Birth.Cand) (L : Ledgers) (cnt : Birth.Counts) (s calls : Nat),
      LedgerInv L →
      LedgerInv (Birth.scanLoop cs L cnt s calls).ledgers ∧
      ∀ z, countOf L z ≤ countOf (Birth.scanLoop cs L cnt s calls).ledgers z) ∧
    (∀ (cs : List Death.Cand) (L : Ledgers) (alive : List Death.AliveSig) (s : Nat),
      LedgerInv L →
      LedgerInv (Death.scanLoop cs L alive s).1 ∧
      ∀ z, countOf L z ≤ countOf (Death.scanLoop cs L alive s).1 z) := by
  refine ⟨fun L y src h => ⟨LedgerInv_recordYear L y src h, countOf_recordYear_mono L y src,
      count_eq_dedup_sources _ (LedgerInv_recordYear L y src h)⟩,
    fun L y src e hl hm => ?_,
    fun cs L cnt s calls h => birth_scanLoop_inv cs L cnt s calls h,
    fun cs L alive s h => death_scanLoop_inv cs L alive s h⟩
  have hself := lookupL_recordYear_self L y src
  rw [hl] at hself
  simp only [Option.getD_some] at hself
  have hbump : bumpEntry e src = { e with sources := e.sources ++ [src] } := by
    simp [bumpEntry, hm]
  constructor
  · rw [countOf, countOf, hself, hl, hbump]
    rfl
  · rw [sourcesOf, sourcesOf, hself, hl, hbump]
    rfl

/-- Witness for `c5_ledger_counting_invariant` at concrete inputs: a
fresh record on the empty ledger, a repeat-domain record on
`Ex.tieLedger`, and a full Scenario-B scan. -/
theorem c5_ledger_counting_invariant_witness :
    LedgerInv (recordYear [] 1950 Ex.exSource) ∧
    countOf (recordYear Ex.tieLedger 1950 Ex.exSource) 1950 = countOf Ex.tieLedger 1950 ∧
    sourcesOf (recordYear Ex.tieLedger 1950 Ex.exSource) 1950 =
      sourcesOf Ex.tieLedger 1950 ++ [Ex.exSource] ∧
    LedgerInv (Birth.scanLoop Ex.scenB [] ⟨0, 0, 0, 0⟩ 0 0).ledgers := by
  have h1 := (c5_ledger_counting_invariant.1 [] 1950 Ex.exSource
    (by intro p hp; cases hp)).1
  have h2 := c5_ledger_counting_invariant.2.1 Ex.tieLedger 1950 Ex.exSource
    ⟨1, ["a.com"], [⟨"u1", 0, "a.com", "born-narrative", 1⟩]⟩ (by decide) (by decide)
  have h3 := (c5_ledger_counting_invariant.2.2.1 Ex.scenB [] ⟨0, 0, 0, 0⟩ 0 0
    (by intro p hp; cases hp)).1
  exact ⟨h1, h2.1, h2.2, h3⟩

end SearchAgent


namespace SearchAgent

/-! ## C6: tie-break lemmas -/

/-- The running argmin never exceeds the starting value. -/
theorem runMin_le_self (f : Nat → Nat) (t : List Nat) :
    ∀ y, f (runMin f y t) ≤ f y := by
  induction t with
  | nil => intro y; exact le_refl _
  | cons z rest ih =>
    intro y
    by_cases h : f z < f y
    · simpa [runMin, h] using le_trans (ih z) (le_of_lt h)
    · simpa [runMin, h] using ih y

/-- The running argmin is minimal over the scanned part. -/
theorem runMin_le_mem (f : Nat → Nat) (t : List Nat) :
    ∀ y, ∀ w ∈ t, f (runMin f y t) ≤ f w := by
  induction t with
  | nil => intro y w hw; cases hw
  | cons z rest ih =>
    intro y w hw
    rcases List.mem_cons.mp hw with rfl | hw
    · by_cases h2 : f w < f y
      · simpa [runMin, h2] using runMin_le_self f rest w
      · simpa [runMin, h2] using le_trans (runMin_le_self f rest y) (Nat.le_of_not_lt h2)
    · by_cases h2 : f z < f y
      · simpa [runMin, h2] using ih z w hw
      · simpa [runMin, h2] using ih y w hw

/-- The running argmin is one of the candidates. -/
theorem runMin_mem (f : Nat → Nat) (t : List Nat) :
    ∀ y, runMin f y t ∈ y :: t := by
  induction t with
  | nil => intro y; simp [runMin]
  | cons z rest ih =>
    intro y
    by_cases h : f z < f y
    · have h' := ih z
      simp only [runMin, h, if_pos]
      exact List.mem_cons_of_mem y (by simpa using h')
    · have h' := ih y
      simp only [runMin, h, if_neg, Bool.false_eq_true]
      rcases List.mem_cons.mp h' with h'' | h''
      · rw [h'']
        exact List.mem_cons_self _ _
      · exact List.mem_cons_of_mem y (List.mem_cons_of_mem z h'')

/-- If the start is already minimal, the running argmin keeps it (strict
improvement is required to replace it). -/
theorem runMin_eq_self_of_le (f : Nat → Nat) (t : List Nat) :
    ∀ y, (∀ w ∈ t, f y ≤ f w) → runMin f y t = y := by
  induction t with
  | nil => intro y _; rfl
  | cons z rest ih =>
    intro y hy
    have hz : ¬ f z < f y := Nat.not_lt.mpr (hy z (List.mem_cons_self _ _))
    simp only [runMin, hz, if_neg, Bool.false_eq_true]
    exact ih y (fun w hw => hy w (List.mem_cons_of_mem z hw))

/-- Once an argmin candidate is installed, the `winner_by_quality` fold
computes exactly the first-occurrence argmin. -/
theorem wq_fold_from (f : Nat → Nat) (t : List Nat) :
    ∀ y, t.foldl
      (fun (acc : Option Nat × Nat) z => if f z < acc.2 then (some z, f z) else acc)
      (some y, f y) = (some (runMin f y t), f (runMin f y t)) := by
  induction t with
  | nil => intro y; rfl
  | cons z rest ih =>
    intro y
    by_cases h : f z < f y
    · simpa [List.foldl_cons, runMin, h] using ih z
    · simpa [List.foldl_cons, runMin, h] using ih y

/-- The running argmin is the first element of the candidate list whose
value is minimal. -/
theorem runMin_find (f : Nat → Nat) (t : List Nat) :
    ∀ y, (y :: t).find? (fun z => decide (f z ≤ f (runMin f y t))) =
      some (runMin f y t) := by
  induction t with
  | nil =>
    intro y
    simp [runMin, List.find?_cons]
  | cons z rest ih =>
    intro y
    by_cases h : f z < f y
    · have hw : runMin f y (z :: rest) = runMin f z rest := by simp [runMin, h]
      rw [hw]
      have hwz : f (runMin f z rest) ≤ f z := runMin_le_self f rest z
      have hny : ¬ f y ≤ f (runMin f z rest) :=
        Nat.not_le.mpr (lt_of_le_of_lt hwz h)
      rw [List.find?_cons_of_neg _ (by simpa using hny)]
      exact ih z
    · have hw : runMin f y (z :: rest) = runMin f y rest := by simp [runMin, h]
      rw [hw]
      by_cases hyw : f y ≤ f (runMin f y rest)
      · have hself : runMin f y rest = y := by
          refine runMin_eq_self_of_le f rest y (fun w hw' => ?_)
          exact le_trans hyw (runMin_le_mem f rest y w hw')
        rw [hself]
        exact List.find?_cons_of_pos _ (by simp)
      · rw [List.find?_cons_of_neg _ (by simpa using hyw)]
        have hzw : ¬ f z ≤ f (runMin f y rest) := by
          have h1 : f (runMin f y rest) ≤ f y := runMin_le_self f rest y
          have h2 : f y ≤ f z := Nat.le_of_not_lt h
          exact fun hc => hyw (le_trans h2 hc)
        rw [List.find?_cons_of_neg _ (by simpa using hzw)]
        have hstep := ih y
        rw [List.find?_cons_of_neg _ (by simpa using hyw)] at hstep
        exact hstep

/-- With duplicate-free keys, membership determines lookup. -/
theorem lookupL_eq_of_mem (L : Ledgers) :
    (L.map Prod.fst).Nodup → ∀ p ∈ L, lookupL L p.1 = some p.2 := by
  induction L with
  | nil => intro _ p hp; cases hp
  | cons q rest ih =>
    intro hnd p hp
    rw [List.map_cons, List.nodup_cons] at hnd
    obtain ⟨hq, hnd2⟩ := hnd
    rcases List.mem_cons.mp hp with rfl | hp2
    · obtain ⟨y', e⟩ := p
      simp [lookupL]
    · obtain ⟨y', e⟩ := q
      by_cases hb : y' = p.1
      · exfalso
        apply hq
        rw [hb]
        exact List.mem_map.mpr ⟨p, hp2, rfl⟩
      · simp only [lookupL, beq_iff_eq, if_neg hb]
        exact ih hnd2 p hp2

/-- Membership in `topYears` unfolded to the ledger. -/
theorem mem_topYears (L : Ledgers) (m z : Nat) :
    z ∈ topYears L m ↔ ∃ e, (z, e) ∈ L ∧ e.count = m := by
  unfold topYears
  simp only [List.mem_map, List.mem_filter, beq_iff_eq]
  constructor
  · rintro ⟨⟨a, b⟩, ⟨hL, hc⟩, rfl⟩
    exact ⟨b, hL, hc⟩
  · rintro ⟨e, hL, hc⟩
    exact ⟨(z, e), ⟨hL, hc⟩, rfl⟩

/-- Folding `Nat.min` never exceeds the seed. -/
theorem foldl_min_le (xs : List Nat) : ∀ a, xs.foldl Nat.min a ≤ a := by
  induction xs with
  | nil => intro a; exact le_refl _
  | cons b rest ih =>
    intro a
    exact le_trans (ih (Nat.min a b)) (Nat.min_le_left a b)

/-- `pyMin999` stays under 999 on a non-empty list of small values. -/
theorem pyMin999_lt_999 (l : List Nat) (hne : ¬ l = [])
    (hb : ∀ x ∈ l, x < 999) : pyMin999 l < 999 := by
  cases l with
  | nil => exact absurd rfl hne
  | cons x xs =>
    exact lt_of_le_of_lt (foldl_min_le xs x) (hb x (List.mem_cons_self _ _))

/-- C6: whenever at least two years are tied at the maximal
independent-domain count (each with at least one recorded source of
quality rank below the 999 sentinel, as the pipeline guarantees),
`winner_by_quality` returns a year of the tied set whose best (minimum)
`quality_rank` over its sources is lowest, and among equally good tied
years it returns the one entered into the ledger first: the `find?`
conjunct states that the winner is the first element of `topYears` —
which lists years in ledger insertion order, i.e. scan order — attaining
the minimal best quality. -/
theorem c6_tie_break_first_best_quality (L : Ledgers)
    (hnd : (L.map Prod.fst).Nodup)
    (htie : 1 < (topYears L (maxCount L)).length)
    (hsrc : ∀ p ∈ L, ¬ p.2.sources = [] ∧ ∀ s ∈ p.2.sources, s.qualityRank < 999) :
    ∃ w, Birth.winner_by_quality L = some w ∧
      w ∈ topYears L (maxCount L) ∧
      (∀ z ∈ topYears L (maxCount L), Birth.bestQofYear L w ≤ Birth.bestQofYear L z) ∧
      (topYears L (maxCount L)).find?
        (fun z => decide (Birth.bestQofYear L z ≤ Birth.bestQofYear L w)) = some w := by
  have hq : ∀ z ∈ topYears L (maxCount L), Birth.bestQofYear L z < 999 := by
    intro z hz
    obtain ⟨e, heL, -⟩ := (mem_topYears L (maxCount L) z).mp hz
    have hlk : lookupL L z = some e := lookupL_eq_of_mem L hnd (z, e) heL
    obtain ⟨hne, hbd⟩ := hsrc (z, e) heL
    have hsz : sourcesOf L z = e.sources := by simp [sourcesOf, hlk]
    rw [Birth.bestQofYear, hsz]
    refine pyMin999_lt_999 _ (by simpa using hne) ?_
    intro x hx
    obtain ⟨srec, hsrec, rfl⟩ := List.mem_map.mp hx
    exact hbd srec hsrec
  have hL : ¬ L = [] := by
    intro hnil
    rw [hnil] at htie
    simp [topYears] at htie
  have hE : L.isEmpty = false := by
    cases L
    · exact absurd rfl hL
    · rfl
  have hlen : ¬ (topYears L (maxCount L)).length = 1 := by omega
  obtain ⟨y0, t, htop⟩ : ∃ y0 t, topYears L (maxCount L) = y0 :: t := by
    cases hc : topYears L (maxCount L) with
    | nil => rw [hc] at htie; simp at htie
    | cons a b => exact ⟨a, b, rfl⟩
  have hy0 : Birth.bestQofYear L y0 < 999 := hq y0 (htop ▸ List.mem_cons_self _ _)
  have hfold : (topYears L (maxCount L)).foldl
      (fun (acc : Option Nat × Nat) z =>
        if Birth.bestQofYear L z < acc.2 then (some z, Birth.bestQofYear L z) else acc)
      (none, 999) =
      (some (runMin (Birth.bestQofYear L) y0 t),
        Birth.bestQofYear L (runMin (Birth.bestQofYear L) y0 t)) := by
    rw [htop, List.foldl_cons, if_pos hy0]
    exact wq_fold_from (Birth.bestQofYear L) t y0
  refine ⟨runMin (Birth.bestQofYear L) y0 t, ?_, ?_, ?_, ?_⟩
  · rw [Birth.winner_by_quality]
    simp only [hE, Bool.false_eq_true, if_false, beq_iff_eq, hlen, if_neg, hfold]
  · rw [htop]
    exact runMin_mem (Birth.bestQofYear L) t y0
  · intro z hz
    rw [htop] at hz
    rcases List.mem_cons.mp hz with rfl | hz
    · exact runMin_le_self (Birth.bestQofYear L) t z
    · exact runMin_le_mem (Birth.bestQofYear L) t y0 z hz
  · rw [htop]
    exact runMin_find (Birth.bestQofYear L) t y0

/-- Witness for `c6_tie_break_first_best_quality` on `Ex.tieLedger`,
where 1950 and 1951 are tied at count 1 and 1951 holds the better
(born-field, rank 0) evidence. -/
theorem c6_tie_break_witness :
    (Ex.tieLedger.map Prod.fst).Nodup ∧
    1 < (topYears Ex.tieLedger (maxCount Ex.tieLedger)).length ∧
    ∃ w, Birth.winner_by_quality Ex.tieLedger = some w ∧
      w ∈ topYears Ex.tieLedger (maxCount Ex.tieLedger) ∧
      (∀ z ∈ topYears Ex.tieLedger (maxCount Ex.tieLedger),
        Birth.bestQofYear Ex.tieLedger w ≤ Birth.bestQofYear Ex.tieLedger z) ∧
      (topYears Ex.tieLedger (maxCount Ex.tieLedger)).find?
        (fun z => decide (Birth.bestQofYear Ex.tieLedger z ≤
          Birth.bestQofYear Ex.tieLedger w)) = some w :=
  ⟨by decide, by decide,
    c6_tie_break_first_best_quality Ex.tieLedger (by decide) (by decide) (by decide)⟩

end SearchAgent

namespace SearchAgent

/-! ## C2: quorum correctness -/

/-- Scan-loop induction for C2: if every extracted claim before index `j`
carries year `y` from the single domain `d1` (at least one such claim
when the ledger is still empty), and the claim at `j` carries year `y`
from a different domain, then the loop exits through the quorum `break`
at `j`, with a single-year ledger, `scanned = s + j + 1` and early winner
`y`. The ledger argument is either empty or the one-entry state that
scanning such a prefix produces. -/
theorem birth_scanLoop_quorum (y : Nat) (d1 : String) :
    ∀ (cs : List Birth.Cand) (j : Nat) (hj : j < cs.length) (L : Ledgers)
      (cnt : Birth.Counts) (s calls : Nat),
      (∀ c ∈ cs, c.chunkKnown = true) →
      (∀ k (hk : k < j), (cs.get ⟨k, lt_trans hk hj⟩).contains = true →
        ((cs.get ⟨k, lt_trans hk hj⟩).year).isSome = true →
        (cs.get ⟨k, lt_trans hk hj⟩).year = some y ∧
          (cs.get ⟨k, lt_trans hk hj⟩).domain = d1) →
      (L = [] ∨ ∃ e, L = [(y, e)] ∧ e.count = 1 ∧ e.domains = [d1]) →
      (L = [] → ∃ k, ∃ hk : k < j, (cs.get ⟨k, lt_trans hk hj⟩).contains = true ∧
        ((cs.get ⟨k, lt_trans hk hj⟩).year).isSome = true) →
      (cs.get ⟨j, hj⟩).contains = true →
      (cs.get ⟨j, hj⟩).year = some y →
      ¬ (cs.get ⟨j, hj⟩).domain = d1 →
      ∃ e2 cnt2 calls2, Birth.scanLoop cs L cnt s calls =
        ⟨[(y, e2)], cnt2, s + j + 1, calls2, some y⟩ := by
  intro cs
  induction cs with
  | nil => intro j hj; exact absurd hj (by simp)
  | cons c rest ih =>
    intro j hj L cnt s calls hall hpre hinv hseen hcj hyj hdj
    have hk' : c.chunkKnown = true := hall c (List.mem_cons_self _ _)
    cases j with
    | zero =>
      rcases hinv with rfl | ⟨e, rfl, he1, he2⟩
      · obtain ⟨k, hk, -⟩ := hseen rfl
        exact absurd hk (Nat.not_lt_zero k)
      · have hcc : c.contains = true := hcj
        have hcy : c.year = some y := hyj
        have hcd : ¬ c.domain = d1 := hdj
        have hnm : ¬ c.domain ∈ e.domains := by
          rw [he2]
          simp [hcd]
        have hbump : bumpEntry e
            ⟨c.url, c.chunkIndex, c.domain, Birth.evidence_type_from_text c.text,
              Birth.quality_rank (Birth.evidence_type_from_text c.text)⟩ =
            ⟨e.count + 1, e.domains ++ [c.domain],
              e.sources ++ [⟨c.url, c.chunkIndex, c.domain,
                Birth.evidence_type_from_text c.text,
                Birth.quality_rank (Birth.evidence_type_from_text c.text)⟩]⟩ := by
          simp [bumpEntry, hnm]
        have hrec : recordYear [(y, e)] y
            ⟨c.url, c.chunkIndex, c.domain, Birth.evidence_type_from_text c.text,
              Birth.quality_rank (Birth.evidence_type_from_text c.text)⟩ =
            [(y, ⟨e.count + 1, e.domains ++ [c.domain],
              e.sources ++ [⟨c.url, c.chunkIndex, c.domain,
                Birth.evidence_type_from_text c.text,
                Birth.quality_rank (Birth.evidence_type_from_text c.text)⟩]⟩)] := by
          simp [recordYear, hbump]
        have hcnt : countOf [(y, (⟨e.count + 1, e.domains ++ [c.domain],
            e.sources ++ [⟨c.url, c.chunkIndex, c.domain,
              Birth.evidence_type_from_text c.text,
              Birth.quality_rank (Birth.evidence_type_from_text c.text)⟩]⟩ : Entry))] y
            = 2 := by
          simp [countOf, lookupL, he1]
        refine ⟨⟨e.count + 1, e.domains ++ [c.domain],
          e.sources ++ [⟨c.url, c.chunkIndex, c.domain,
            Birth.evidence_type_from_text c.text,
            Birth.quality_rank (Birth.evidence_type_from_text c.text)⟩]⟩,
          cnt, calls + 1, ?_⟩
        simp [Birth.scanLoop, hk', hcc, hcy, hrec, hcnt]
    | succ j' =>
      have hj2 : j' < rest.length := Nat.lt_of_succ_lt_succ hj
      have hall2 : ∀ c' ∈ rest, c'.chunkKnown = true :=
        fun c' hc' => hall c' (List.mem_cons_of_mem c hc')
      have hpre2 : ∀ k (hk : k < j'), (rest.get ⟨k, lt_trans hk hj2⟩).contains = true →
          ((rest.get ⟨k, lt_trans hk hj2⟩).year).isSome = true →
          (rest.get ⟨k, lt_trans hk hj2⟩).year = some y ∧
            (rest.get ⟨k, lt_trans hk hj2⟩).domain = d1 :=
        fun k hk => hpre (k + 1) (Nat.succ_lt_succ hk)
      have hcj2 : (rest.get ⟨j', hj2⟩).contains = true := hcj
      have hyj2 : (rest.get ⟨j', hj2⟩).year = some y := hyj
      have hdj2 : ¬ (rest.get ⟨j', hj2⟩).domain = d1 := hdj
      have harith : (s + 1) + j' + 1 = s + (j' + 1) + 1 := by omega
      by_cases hcc : c.contains = false
      · have heq : Birth.scanLoop (c :: rest) L cnt s calls =
            Birth.scanLoop rest L { cnt with cntNone := cnt.cntNone + 1 }
              (s + 1) (calls + 1) := by
          simp [Birth.scanLoop, hk', hcc]
        have hseen2 : L = [] → ∃ k, ∃ hk : k < j',
            (rest.get ⟨k, lt_trans hk hj2⟩).contains = true ∧
            ((rest.get ⟨k, lt_trans hk hj2⟩).year).isSome = true := by
          intro hL
          obtain ⟨k, hk, h1, h2⟩ := hseen hL
          cases k with
          | zero => exact absurd h1 (by simp [hcc])
          | succ k' => exact ⟨k', Nat.lt_of_succ_lt_succ hk, h1, h2⟩
        obtain ⟨e2, cnt2, calls2, hres⟩ := ih j' hj2 L
          { cnt with cntNone := cnt.cntNone + 1 } (s + 1) (calls + 1)
          hall2 hpre2 hinv hseen2 hcj2 hyj2 hdj2
        rw [harith] at hres
        exact ⟨e2, cnt2, calls2, heq.trans hres⟩
      · have hcc' : c.contains = true := by revert hcc; cases c.contains <;> simp
        cases hcy : c.year with
        | none =>
          have heq : Birth.scanLoop (c :: rest) L cnt s calls =
              Birth.scanLoop rest L { cnt with cntNone := cnt.cntNone + 1 }
                (s + 1) (calls + 1) := by
            simp [Birth.scanLoop, hk', hcc', hcy]
          have hseen2 : L = [] → ∃ k, ∃ hk : k < j',
              (rest.get ⟨k, lt_trans hk hj2⟩).contains = true ∧
              ((rest.get ⟨k, lt_trans hk hj2⟩).year).isSome = true := by
            intro hL
            obtain ⟨k, hk, h1, h2⟩ := hseen hL
            cases k with
            | zero =>
              have : c.year.isSome = true := h2
              rw [hcy] at this
              cases this
            | succ k' => exact ⟨k', Nat.lt_of_succ_lt_succ hk, h1, h2⟩
          obtain ⟨e2, cnt2, calls2, hres⟩ := ih j' hj2 L
            { cnt with cntNone := cnt.cntNone + 1 } (s + 1) (calls + 1)
            hall2 hpre2 hinv hseen2 hcj2 hyj2 hdj2
          rw [harith] at hres
          exact ⟨e2, cnt2, calls2, heq.trans hres⟩
        | some yc =>
          have hpres := hpre 0 (Nat.succ_pos j') hcc'
            (by show c.year.isSome = true; rw [hcy]; rfl)
          have hcyy : c.year = some y := hpres.1
          have hcd : c.domain = d1 := hpres.2
          rcases hinv with rfl | ⟨e, rfl, he1, he2⟩
          · have hrec : recordYear [] y
                ⟨c.url, c.chunkIndex, c.domain, Birth.evidence_type_from_text c.text,
                  Birth.quality_rank (Birth.evidence_type_from_text c.text)⟩ =
                [(y, ⟨1, [c.domain],
                  [⟨c.url, c.chunkIndex, c.domain, Birth.evidence_type_from_text c.text,
                    Birth.quality_rank (Birth.evidence_type_from_text c.text)⟩]⟩)] := by
              simp [recordYear, bumpEntry]
            have hq : ¬ 2 ≤ countOf [(y, (⟨1, [c.domain],
                [⟨c.url, c.chunkIndex, c.domain, Birth.evidence_type_from_text c.text,
                  Birth.quality_rank (Birth.evidence_type_from_text c.text)⟩]⟩ : Entry))]
                y := by
              simp [countOf, lookupL]
            have heq : Birth.scanLoop (c :: rest) [] cnt s calls =
                Birth.scanLoop rest
                  [(y, ⟨1, [c.domain],
                    [⟨c.url, c.chunkIndex, c.domain, Birth.evidence_type_from_text c.text,
                      Birth.quality_rank (Birth.evidence_type_from_text c.text)⟩]⟩)]
                  cnt (s + 1) (calls + 1) := by
              simp [Birth.scanLoop, hk', hcc', hcyy, hq, hrec]
            have hinv2 : [(y, (⟨1, [c.domain],
                [⟨c.url, c.chunkIndex, c.domain, Birth.evidence_type_from_text c.text,
                  Birth.quality_rank (Birth.evidence_type_from_text c.text)⟩]⟩ : Entry))]
                = ([] : Ledgers) ∨
                ∃ e, [(y, (⟨1, [c.domain],
                  [⟨c.url, c.chunkIndex, c.domain, Birth.evidence_type_from_text c.text,
                    Birth.quality_rank (Birth.evidence_type_from_text c.text)⟩]⟩ : Entry))]
                  = [(y, e)] ∧ e.count = 1 ∧ e.domains = [d1] := by
              refine Or.inr ⟨_, rfl, rfl, ?_⟩
              rw [hcd]
            obtain ⟨e2, cnt2, calls2, hres⟩ := ih j' hj2 _ cnt (s + 1) (calls + 1)
              hall2 hpre2 hinv2 (fun h => by cases h) hcj2 hyj2 hdj2
            rw [harith] at hres
            exact ⟨e2, cnt2, calls2, heq.trans hres⟩
          · have hmem : c.domain ∈ e.domains := by
              rw [he2, hcd]
              exact List.mem_singleton.mpr rfl
            have hbump : bumpEntry e
                ⟨c.url, c.chunkIndex, c.domain, Birth.evidence_type_from_text c.text,
                  Birth.quality_rank (Birth.evidence_type_from_text c.text)⟩ =
                { e with sources := e.sources ++
                  [⟨c.url, c.chunkIndex, c.domain, Birth.evidence_type_from_text c.text,
                    Birth.quality_rank (Birth.evidence_type_from_text c.text)⟩] } := by
              simp [bumpEntry, hmem]
            have hrec : recordYear [(y, e)] y
                ⟨c.url, c.chunkIndex, c.domain, Birth.evidence_type_from_text c.text,
                  Birth.quality_rank (Birth.evidence_type_from_text c.text)⟩ =
                [(y, { e with sources := e.sources ++
                  [⟨c.url, c.chunkIndex, c.domain, Birth.evidence_type_from_text c.text,
                    Birth.quality_rank (Birth.evidence_type_from_text c.text)⟩] })] := by
              simp [recordYear, hbump]
            have hq : ¬ 2 ≤ countOf [(y, { e with sources := e.sources ++
                [⟨c.url, c.chunkIndex, c.domain, Birth.evidence_type_from_text c.text,
                  Birth.quality_rank (Birth.evidence_type_from_text c.text)⟩] })] y := by
              simp [countOf, lookupL, he1]
            have heq : Birth.scanLoop (c :: rest) [(y, e)] cnt s calls =
                Birth.scanLoop rest
                  [(y, { e with sources := e.sources ++
                    [⟨c.url, c.chunkIndex, c.domain, Birth.evidence_type_from_text c.text,
                      Birth.quality_rank (Birth.evidence_type_from_text c.text)⟩] })]
                  cnt (s + 1) (calls + 1) := by
              simp [Birth.scanLoop, hk', hcc', hcyy, hq, hrec]
            have hinv2 : [(y, { e with sources := e.sources ++
                  [⟨c.url, c.chunkIndex, c.domain, Birth.evidence_type_from_text c.text,
                    Birth.quality_rank (Birth.evidence_type_from_text c.text)⟩] })]
                = ([] : Ledgers) ∨
                ∃ e' : Entry, [(y, { e with sources := e.sources ++
                  [⟨c.url, c.chunkIndex, c.domain, Birth.evidence_type_from_text c.text,
                    Birth.quality_rank (Birth.evidence_type_from_text c.text)⟩] })]
                  = [(y, e')] ∧ e'.count = 1 ∧ e'.domains = [d1] := by
              refine Or.inr ⟨_, rfl, ?_, ?_⟩
              · exact he1
              · exact he2
            obtain ⟨e2, cnt2, calls2, hres⟩ := ih j' hj2 _ cnt (s + 1) (calls + 1)
              hall2 hpre2 hinv2 (fun h => by cases h) hcj2 hyj2 hdj2
            rw [harith] at hres
            exact ⟨e2, cnt2, calls2, heq.trans hres⟩

end SearchAgent

namespace SearchAgent

/-- C2: in the birth-year pipeline, whenever all extracted claims before
index `j` that are `Present` (a year was parsed) agree on year `y` from a
single normalized domain `d1`, at least one of them exists, and the claim
at index `j` (within the scan budget) is `Present` with the same year `y`
from a different domain — i.e. the first two distinct-domain `Present`
claims agree on `y` and precede any claim for a different year — the scan
stops at that second claim and the result has
`corroboration_outcome = "verified"`, `winner_year = y`, `verified = 2`
and a scanned count of `j + 1`. -/
theorem c2_first_two_distinct_domains_verify (maxScans : Nat) (person : String)
    (cands : List Birth.Cand) (y : Nat) (d1 : String) (j : Nat)
    (hj : j < cands.length) (hjm : j < maxScans)
    (hperson : ∀ c ∈ cands, c.personName = person)
    (hall : ∀ c ∈ cands, c.chunkKnown = true)
    (hpre : ∀ k (hk : k < j), (cands.get ⟨k, lt_trans hk hj⟩).contains = true →
      ((cands.get ⟨k, lt_trans hk hj⟩).year).isSome = true →
      (cands.get ⟨k, lt_trans hk hj⟩).year = some y ∧
        (cands.get ⟨k, lt_trans hk hj⟩).domain = d1)
    (hfirst : ∃ k, ∃ hk : k < j, (cands.get ⟨k, lt_trans hk hj⟩).contains = true ∧
      ((cands.get ⟨k, lt_trans hk hj⟩).year).isSome = true)
    (hcj : (cands.get ⟨j, hj⟩).contains = true)
    (hyj : (cands.get ⟨j, hj⟩).year = some y)
    (hdj : ¬ (cands.get ⟨j, hj⟩).domain = d1) :
    (Birth.runVerify maxScans person cands).corroboration_outcome = "verified" ∧
    (Birth.runVerify maxScans person cands).winner_year = some y ∧
    (Birth.runVerify maxScans person cands).verified = 2 ∧
    (Birth.runVerify maxScans person cands).corroboration_attempts = j + 1 := by
  have hfil : cands.filter (·.personName == person) = cands :=
    List.filter_eq_self.mpr (fun c hc => by simp [hperson c hc])
  have hne : cands.isEmpty = false := by
    cases cands
    · exact absurd hj (by simp)
    · rfl
  have hlen : j < (cands.take maxScans).length := by
    rw [List.length_take]
    exact Nat.lt_min.mpr ⟨hjm, hj⟩
  have hget : ∀ (k : Nat) (hk : k < (cands.take maxScans).length)
      (hk2 : k < cands.length),
      (cands.take maxScans).get ⟨k, hk⟩ = cands.get ⟨k, hk2⟩ := by
    intro k hk hk2
    simp [List.get_eq_getElem, List.getElem_take]
  obtain ⟨e2, cnt2, calls2, hres⟩ := birth_scanLoop_quorum y d1
    (cands.take maxScans) j hlen [] ⟨0, 0, 0, 0⟩ 0 0
    (fun c hc => hall c (List.take_subset maxScans cands hc))
    (fun k hk h1 h2 => by
      rw [hget k (lt_trans hk hlen) (lt_trans hk hj)] at h1 h2 ⊢
      exact hpre k hk h1 h2)
    (Or.inl rfl)
    (fun _ => by
      obtain ⟨k, hk, h1, h2⟩ := hfirst
      refine ⟨k, hk, ?_, ?_⟩ <;>
        rw [hget k (lt_trans hk hlen) (lt_trans hk hj)]
      · exact h1
      · exact h2)
    (by rw [hget j hlen hj]; exact hcj)
    (by rw [hget j hlen hj]; exact hyj)
    (by rw [hget j hlen hj]; exact hdj)
  have hrun : Birth.runVerify maxScans person cands =
      Birth.decide_outcome person
        (Birth.scanLoop (cands.take maxScans) [] ⟨0, 0, 0, 0⟩ 0 0) := by
    rw [Birth.runVerify, hfil]
    simp [hne]
  rw [hrun, hres]
  simp [Birth.decide_outcome]

/-- Witness for `c2_first_two_distinct_domains_verify`: two candidates
with year 1950 from `a.com` then `b.com` verify 1950 in two scans. -/
theorem c2_first_two_distinct_domains_verify_witness :
    (Birth.runVerify 10 "p" [Ex.presentCand, Ex.presentCand2]).corroboration_outcome
      = "verified" ∧
    (Birth.runVerify 10 "p" [Ex.presentCand, Ex.presentCand2]).winner_year = some 1950 ∧
    (Birth.runVerify 10 "p" [Ex.presentCand, Ex.presentCand2]).verified = 2 ∧
    (Birth.runVerify 10 "p" [Ex.presentCand, Ex.presentCand2]).corroboration_attempts
      = 1 + 1 :=
  c2_first_two_distinct_domains_verify 10 "p" [Ex.presentCand, Ex.presentCand2]
    1950 "a.com" 1 (by decide) (by decide) (by decide) (by decide) (by decide)
    ⟨0, by decide, by decide, by decide⟩ (by decide) (by decide) (by decide)

end SearchAgent

namespace SearchAgent

/-! ## C8: nationality-ledger lemmas -/

/-- Looking up the recorded code yields the bumped entry. -/
theorem lookupN_recordNat_self (L : Natl.NLedgers) (c : String) (src : Natl.NSource) :
    Natl.lookupN (Natl.recordNat L c src) c =
      some (Natl.bumpN ((Natl.lookupN L c).getD ⟨0, [], []⟩) src) := by
  induction L with
  | nil => simp [Natl.recordNat, Natl.lookupN]
  | cons p rest ih =>
    obtain ⟨c', e⟩ := p
    by_cases hb : c' = c
    · subst hb
      simp [Natl.recordNat, Natl.lookupN]
    · simp only [Natl.recordNat, Natl.lookupN, beq_iff_eq, if_neg hb]
      exact ih

/-- Looking up any other code is unchanged by `recordNat`. -/
theorem lookupN_recordNat_other (L : Natl.NLedgers) (c : String) (src : Natl.NSource)
    (z : String) (hz : ¬ z = c) :
    Natl.lookupN (Natl.recordNat L c src) z = Natl.lookupN L z := by
  have hcz : ¬ c = z := fun h => hz h.symm
  induction L with
  | nil => simp [Natl.recordNat, Natl.lookupN, beq_iff_eq, hcz]
  | cons p rest ih =>
    obtain ⟨c', e⟩ := p
    by_cases hb : c' = c
    · subst hb
      simp [Natl.recordNat, Natl.lookupN, beq_iff_eq, hcz]
    · by_cases hbz : c' = z
      · subst hbz
        simp [Natl.recordNat, Natl.lookupN, beq_iff_eq, hb]
      · simp only [Natl.recordNat, Natl.lookupN, beq_iff_eq, if_neg hb, if_neg hbz]
        exact ih

/-- The keys after `recordNat` are the old keys, possibly extended by the
recorded code. -/
theorem keys_recordNat_mem (L : Natl.NLedgers) (c : String) (src : Natl.NSource) :
    ∀ x, x ∈ (Natl.recordNat L c src).map Prod.fst ↔
      x ∈ L.map Prod.fst ∨ x = c := by
  induction L with
  | nil => intro x; simp [Natl.recordNat]
  | cons p rest ih =>
    intro x
    obtain ⟨c', e⟩ := p
    by_cases hb : c' = c
    · subst hb
      simp only [Natl.recordNat, beq_self_eq_true, if_pos, List.map_cons, List.mem_cons]
      constructor
      · rintro (rfl | h)
        · exact Or.inr rfl
        · exact Or.inl (Or.inr h)
      · rintro ((rfl | h) | rfl)
        · exact Or.inl rfl
        · exact Or.inr h
        · exact Or.inl rfl
    · simp only [Natl.recordNat, beq_iff_eq, if_neg hb, List.map_cons, List.mem_cons, ih x]
      constructor
      · rintro (rfl | h | rfl)
        · exact Or.inl (Or.inl rfl)
        · exact Or.inl (Or.inr h)
        · exact Or.inr rfl
      · rintro ((rfl | h) | rfl)
        · exact Or.inl rfl
        · exact Or.inr (Or.inl h)
        · exact Or.inr (Or.inr rfl)

/-- `recordNat` keeps the keys duplicate-free. -/
theorem keys_recordNat_nodup (L : Natl.NLedgers) (c : String) (src : Natl.NSource) :
    (L.map Prod.fst).Nodup → ((Natl.recordNat L c src).map Prod.fst).Nodup := by
  induction L with
  | nil => intro _; simp [Natl.recordNat]
  | cons p rest ih =>
    intro h
    obtain ⟨c', e⟩ := p
    rw [List.map_cons, List.nodup_cons] at h
    obtain ⟨hq, hnd⟩ := h
    by_cases hb : c' = c
    · subst hb
      simp only [Natl.recordNat, beq_self_eq_true, if_pos, List.map_cons, List.nodup_cons]
      exact ⟨hq, hnd⟩
    · simp only [Natl.recordNat, beq_iff_eq, if_neg hb, List.map_cons, List.nodup_cons]
      refine ⟨fun hmem => ?_, ih hnd⟩
      rcases (keys_recordNat_mem rest c src c').mp hmem with h' | h'
      · exact hq h'
      · exact hb h'

/-- A successful lookup comes from a ledger element. -/
theorem mem_of_lookupN (L : Natl.NLedgers) (c : String) (e : Natl.NEntry) :
    Natl.lookupN L c = some e → (c, e) ∈ L := by
  induction L with
  | nil => intro h; cases h
  | cons p rest ih =>
    intro h
    obtain ⟨c', e'⟩ := p
    by_cases hb : c' = c
    · subst hb
      simp only [Natl.lookupN, beq_self_eq_true, if_pos, Option.some.injEq] at h
      subst h
      exact List.mem_cons_self _ _
    · simp only [Natl.lookupN, beq_iff_eq, if_neg hb] at h
      exact List.mem_cons_of_mem _ (ih h)

/-- With duplicate-free keys, membership determines nationality lookup. -/
theorem lookupN_eq_of_mem (L : Natl.NLedgers) :
    (L.map Prod.fst).Nodup → ∀ p ∈ L, Natl.lookupN L p.1 = some p.2 := by
  induction L with
  | nil => intro _ p hp; cases hp
  | cons q rest ih =>
    intro hnd p hp
    rw [List.map_cons, List.nodup_cons] at hnd
    obtain ⟨hq, hnd2⟩ := hnd
    rcases List.mem_cons.mp hp with rfl | hp2
    · obtain ⟨c', e⟩ := p
      simp [Natl.lookupN]
    · obtain ⟨c', e⟩ := q
      by_cases hb : c' = p.1
      · exfalso
        apply hq
        rw [hb]
        exact List.mem_map.mpr ⟨p, hp2, rfl⟩
      · simp only [Natl.lookupN, beq_iff_eq, if_neg hb]
        exact ih hnd2 p hp2

/-- Lookup after recording a duplicate-free batch of codes against one
source: codes in the batch get one bump, all other keys are untouched. -/
theorem lookupN_recordAllNat (src : Natl.NSource) :
    ∀ (lst : List String), lst.Nodup → ∀ (L : Natl.NLedgers) (code : String),
      Natl.lookupN (Natl.recordAllNat L lst src) code =
        if code ∈ lst then
          some (Natl.bumpN ((Natl.lookupN L code).getD ⟨0, [], []⟩) src)
        else Natl.lookupN L code := by
  intro lst
  induction lst with
  | nil => intro _ L code; simp [Natl.recordAllNat]
  | cons n t ih =>
    intro hnd L code
    rw [List.nodup_cons] at hnd
    obtain ⟨hn, hnd2⟩ := hnd
    have hstep : Natl.recordAllNat L (n :: t) src =
        Natl.recordAllNat (Natl.recordNat L n src) t src := by
      simp [Natl.recordAllNat]
    rw [hstep, ih hnd2]
    by_cases hc : code = n
    · subst hc
      have hnt : ¬ code ∈ t := hn
      simp only [hnt, if_neg, List.mem_cons, true_or, if_pos, Bool.false_eq_true]
      rw [lookupN_recordNat_self]
      simp [hnt]
    · by_cases hct : code ∈ t
      · simp only [hct, if_pos, List.mem_cons, or_true, if_true]
        rw [lookupN_recordNat_other L n src code hc]
      · simp only [hct, if_neg, Bool.false_eq_true]
        rw [lookupN_recordNat_other L n src code hc]
        simp [hct, hc]

/-- `recordAllNat` keeps the keys duplicate-free. -/
theorem keys_recordAllNat_nodup (src : Natl.NSource) :
    ∀ (lst : List String) (L : Natl.NLedgers),
      (L.map Prod.fst).Nodup → ((Natl.recordAllNat L lst src).map Prod.fst).Nodup := by
  intro lst
  induction lst with
  | nil => intro L h; simpa [Natl.recordAllNat] using h
  | cons n t ih =>
    intro L h
    have hstep : Natl.recordAllNat L (n :: t) src =
        Natl.recordAllNat (Natl.recordNat L n src) t src := by
      simp [Natl.recordAllNat]
    rw [hstep]
    exact ih _ (keys_recordNat_nodup L n src h)

/-- The early-stop test of the nationality loop, characterised through
lookups (so that it transfers along lookup-equal ledgers). -/
theorem any_quorum_iff (L : Natl.NLedgers) (hnd : (L.map Prod.fst).Nodup) :
    L.any (fun p => 2 ≤ p.2.count) = true ↔
      ∃ c e, Natl.lookupN L c = some e ∧ 2 ≤ e.count := by
  rw [List.any_eq_true]
  constructor
  · rintro ⟨p, hp, hc⟩
    exact ⟨p.1, p.2, lookupN_eq_of_mem L hnd p hp, by simpa using hc⟩
  · rintro ⟨c, e, hlk, hc⟩
    exact ⟨(c, e), mem_of_lookupN L c e hlk, by simpa using hc⟩

end SearchAgent

namespace SearchAgent

/-- Two admissible set-iteration orders drive the nationality scan loop
to lookup-equal ledgers with identical scan counts. -/
theorem natLoop_agreement (ord1 ord2 : List String → List String)
    (h1 : Natl.validOrd ord1) (h2 : Natl.validOrd ord2) :
    ∀ (cs : List Natl.Cand) (L1 L2 : Natl.NLedgers) (s : Nat),
      (L1.map Prod.fst).Nodup → (L2.map Prod.fst).Nodup →
      (∀ code, Natl.lookupN L1 code = Natl.lookupN L2 code) →
      (Natl.scanLoop ord1 cs L1 s).2 = (Natl.scanLoop ord2 cs L2 s).2 ∧
      ((Natl.scanLoop ord1 cs L1 s).1.map Prod.fst).Nodup ∧
      ((Natl.scanLoop ord2 cs L2 s).1.map Prod.fst).Nodup ∧
      ∀ code, Natl.lookupN (Natl.scanLoop ord1 cs L1 s).1 code =
        Natl.lookupN (Natl.scanLoop ord2 cs L2 s).1 code := by
  intro cs
  induction cs with
  | nil => intro L1 L2 s hn1 hn2 hR; exact ⟨rfl, hn1, hn2, hR⟩
  | cons c rest ih =>
    intro L1 L2 s hn1 hn2 hR
    by_cases hk : c.chunkKnown = false
    · simpa [Natl.scanLoop, hk] using ih L1 L2 (s + 1) hn1 hn2 hR
    · have hk' : c.chunkKnown = true := by revert hk; cases c.chunkKnown <;> simp
      by_cases hf : c.found = false
      · simpa [Natl.scanLoop, hk', hf] using ih L1 L2 (s + 1) hn1 hn2 hR
      · have hf' : c.found = true := by revert hf; cases c.found <;> simp
        by_cases hce : c.codes = []
        · have he1 : (ord1 c.codes).isEmpty = true := by
            rw [List.isEmpty_iff, List.eq_nil_iff_forall_not_mem]
            intro x hx
            have := ((h1 c.codes).2 x).mp hx
            rw [hce] at this
            cases this
          have he2 : (ord2 c.codes).isEmpty = true := by
            rw [List.isEmpty_iff, List.eq_nil_iff_forall_not_mem]
            intro x hx
            have := ((h2 c.codes).2 x).mp hx
            rw [hce] at this
            cases this
          simpa [Natl.scanLoop, hk', hf', he1, he2] using ih L1 L2 (s + 1) hn1 hn2 hR
        · obtain ⟨x0, hx0⟩ := List.exists_mem_of_ne_nil c.codes hce
          have he1 : (ord1 c.codes).isEmpty = false := by
            rcases hh : ord1 c.codes with _ | ⟨a, t⟩
            · exfalso
              have := ((h1 c.codes).2 x0).mpr hx0
              rw [hh] at this
              cases this
            · rfl
          have he2 : (ord2 c.codes).isEmpty = false := by
            rcases hh : ord2 c.codes with _ | ⟨a, t⟩
            · exfalso
              have := ((h2 c.codes).2 x0).mpr hx0
              rw [hh] at this
              cases this
            · rfl
          have hR' : ∀ code, Natl.lookupN
              (Natl.recordAllNat L1 (ord1 c.codes) ⟨c.url, c.chunkIndex, c.domain⟩) code =
              Natl.lookupN
              (Natl.recordAllNat L2 (ord2 c.codes) ⟨c.url, c.chunkIndex, c.domain⟩) code := by
            intro code
            rw [lookupN_recordAllNat _ _ (h1 c.codes).1,
              lookupN_recordAllNat _ _ (h2 c.codes).1]
            have hmm : code ∈ ord1 c.codes ↔ code ∈ ord2 c.codes :=
              Iff.trans ((h1 c.codes).2 code) (Iff.symm ((h2 c.codes).2 code))
            by_cases hcm : code ∈ ord1 c.codes
            · rw [if_pos hcm, if_pos (hmm.mp hcm), hR code]
            · rw [if_neg hcm, if_neg (fun h => hcm (hmm.mpr h))]
              exact hR code
          have hn1' := keys_recordAllNat_nodup ⟨c.url, c.chunkIndex, c.domain⟩
            (ord1 c.codes) L1 hn1
          have hn2' := keys_recordAllNat_nodup ⟨c.url, c.chunkIndex, c.domain⟩
            (ord2 c.codes) L2 hn2
          have hany : (Natl.recordAllNat L1 (ord1 c.codes)
              ⟨c.url, c.chunkIndex, c.domain⟩).any (fun p => 2 ≤ p.2.count) =
              (Natl.recordAllNat L2 (ord2 c.codes)
              ⟨c.url, c.chunkIndex, c.domain⟩).any (fun p => 2 ≤ p.2.count) := by
            rw [Bool.eq_iff_iff, any_quorum_iff _ hn1', any_quorum_iff _ hn2']
            constructor
            · rintro ⟨cd, e, hlk, hcnt⟩
              exact ⟨cd, e, (hR' cd).symm.trans hlk, hcnt⟩
            · rintro ⟨cd, e, hlk, hcnt⟩
              exact ⟨cd, e, (hR' cd).trans hlk, hcnt⟩
          by_cases hqq : (Natl.recordAllNat L1 (ord1 c.codes)
              ⟨c.url, c.chunkIndex, c.domain⟩).any (fun p => 2 ≤ p.2.count) = true
          · have hqq2 : (Natl.recordAllNat L2 (ord2 c.codes)
                ⟨c.url, c.chunkIndex, c.domain⟩).any (fun p => 2 ≤ p.2.count) = true :=
              hany ▸ hqq
            have heq1 : Natl.scanLoop ord1 (c :: rest) L1 s =
                (Natl.recordAllNat L1 (ord1 c.codes) ⟨c.url, c.chunkIndex, c.domain⟩,
                  s + 1) := by
              simp [Natl.scanLoop, hk', hf', he1, hqq]
            have heq2 : Natl.scanLoop ord2 (c :: rest) L2 s =
                (Natl.recordAllNat L2 (ord2 c.codes) ⟨c.url, c.chunkIndex, c.domain⟩,
                  s + 1) := by
              simp [Natl.scanLoop, hk', hf', he2, hqq2]
            rw [heq1, heq2]
            exact ⟨rfl, hn1', hn2', hR'⟩
          · have hqq2 : ¬ (Natl.recordAllNat L2 (ord2 c.codes)
                ⟨c.url, c.chunkIndex, c.domain⟩).any (fun p => 2 ≤ p.2.count) = true :=
              fun h => hqq (hany ▸ h)
            have heq1 : Natl.scanLoop ord1 (c :: rest) L1 s =
                Natl.scanLoop ord1 rest
                  (Natl.recordAllNat L1 (ord1 c.codes) ⟨c.url, c.chunkIndex, c.domain⟩)
                  (s + 1) := by
              simp [Natl.scanLoop, hk', hf', he1, hqq]
            have heq2 : Natl.scanLoop ord2 (c :: rest) L2 s =
                Natl.scanLoop ord2 rest
                  (Natl.recordAllNat L2 (ord2 c.codes) ⟨c.url, c.chunkIndex, c.domain⟩)
                  (s + 1) := by
              simp [Natl.scanLoop, hk', hf', he2, hqq2]
            rw [heq1, heq2]
            exact ih _ _ (s + 1) hn1' hn2' hR'

/-- Membership in the verified-codes list, through lookups. -/
theorem mem_verified_nats (L : Natl.NLedgers) (hnd : (L.map Prod.fst).Nodup)
    (code : String) :
    code ∈ (L.filter (fun p => 2 ≤ p.2.count)).map Prod.fst ↔
      ∃ e, Natl.lookupN L code = some e ∧ 2 ≤ e.count := by
  simp only [List.mem_map, List.mem_filter, decide_eq_true_eq]
  constructor
  · rintro ⟨⟨cd, e⟩, ⟨hmem, hc⟩, rfl⟩
    exact ⟨e, lookupN_eq_of_mem L hnd (cd, e) hmem, hc⟩
  · rintro ⟨e, hlk, hc⟩
    exact ⟨(code, e), ⟨mem_of_lookupN L code e hlk, hc⟩, rfl⟩

/-- Membership in the unverified-codes list, through lookups. -/
theorem mem_unverified_nats (L : Natl.NLedgers) (hnd : (L.map Prod.fst).Nodup)
    (code : String) :
    code ∈ (L.filter (fun p => p.2.count == 1)).map Prod.fst ↔
      ∃ e, Natl.lookupN L code = some e ∧ e.count = 1 := by
  simp only [List.mem_map, List.mem_filter, beq_iff_eq]
  constructor
  · rintro ⟨⟨cd, e⟩, ⟨hmem, hc⟩, rfl⟩
    exact ⟨e, lookupN_eq_of_mem L hnd (cd, e) hmem, hc⟩
  · rintro ⟨e, hlk, hc⟩
    exact ⟨(code, e), ⟨mem_of_lookupN L code e hlk, hc⟩, rfl⟩

/-- Lookup-equal ledgers with duplicate-free keys classify to results that
agree on every field except possibly the order of the code lists. -/
theorem natDecide_agreement (person : String) (L1 L2 : Natl.NLedgers) (s : Nat)
    (hn1 : (L1.map Prod.fst).Nodup) (hn2 : (L2.map Prod.fst).Nodup)
    (hR : ∀ code, Natl.lookupN L1 code = Natl.lookupN L2 code) :
    (Natl.decide_outcome person L1 s).verified = (Natl.decide_outcome person L2 s).verified ∧
    (Natl.decide_outcome person L1 s).corroboration_outcome =
      (Natl.decide_outcome person L2 s).corroboration_outcome ∧
    (Natl.decide_outcome person L1 s).scanned = (Natl.decide_outcome person L2 s).scanned ∧
    (∀ code, code ∈ (Natl.decide_outcome person L1 s).nationalities ↔
      code ∈ (Natl.decide_outcome person L2 s).nationalities) ∧
    (∀ code, code ∈ (Natl.decide_outcome person L1 s).unverified_nationalities ↔
      code ∈ (Natl.decide_outcome person L2 s).unverified_nationalities) := by
  have hv : ∀ code, code ∈ (L1.filter (fun p => 2 ≤ p.2.count)).map Prod.fst ↔
      code ∈ (L2.filter (fun p => 2 ≤ p.2.count)).map Prod.fst := by
    intro code
    rw [mem_verified_nats L1 hn1, mem_verified_nats L2 hn2]
    constructor
    · rintro ⟨e, hlk, hc⟩
      exact ⟨e, (hR code).symm.trans hlk, hc⟩
    · rintro ⟨e, hlk, hc⟩
      exact ⟨e, (hR code).trans hlk, hc⟩
  have hu : ∀ code, code ∈ (L1.filter (fun p => p.2.count == 1)).map Prod.fst ↔
      code ∈ (L2.filter (fun p => p.2.count == 1)).map Prod.fst := by
    intro code
    rw [mem_unverified_nats L1 hn1, mem_unverified_nats L2 hn2]
    constructor
    · rintro ⟨e, hlk, hc⟩
      exact ⟨e, (hR code).symm.trans hlk, hc⟩
    · rintro ⟨e, hlk, hc⟩
      exact ⟨e, (hR code).trans hlk, hc⟩
  have hvE : ((L1.filter (fun p => 2 ≤ p.2.count)).map Prod.fst).isEmpty =
      ((L2.filter (fun p => 2 ≤ p.2.count)).map Prod.fst).isEmpty := by
    rw [Bool.eq_iff_iff, List.isEmpty_iff, List.isEmpty_iff,
      List.eq_nil_iff_forall_not_mem, List.eq_nil_iff_forall_not_mem]
    exact ⟨fun h x hx => h x ((hv x).mpr hx), fun h x hx => h x ((hv x).mp hx)⟩
  have huE : ((L1.filter (fun p => p.2.count == 1)).map Prod.fst).isEmpty =
      ((L2.filter (fun p => p.2.count == 1)).map Prod.fst).isEmpty := by
    rw [Bool.eq_iff_iff, List.isEmpty_iff, List.isEmpty_iff,
      List.eq_nil_iff_forall_not_mem, List.eq_nil_iff_forall_not_mem]
    exact ⟨fun h x hx => h x ((hu x).mpr hx), fun h x hx => h x ((hu x).mp hx)⟩
  refine ⟨?_, ?_, rfl, hv, hu⟩
  · simp only [Natl.decide_outcome, hvE, huE]
  · simp only [Natl.decide_outcome, hvE, huE]

end SearchAgent

namespace SearchAgent

/-- `dedupFirstAux` returns each unseen element exactly once. -/
theorem dedupFirstAux_spec :
    ∀ (l seen : List String), (dedupFirstAux seen l).Nodup ∧
      ∀ x, x ∈ dedupFirstAux seen l ↔ x ∈ l ∧ ¬ x ∈ seen := by
  intro l
  induction l with
  | nil => intro seen; exact ⟨List.nodup_nil, by simp [dedupFirstAux]⟩
  | cons a rest ih =>
    intro seen
    by_cases hc : a ∈ seen
    · obtain ⟨ihn, ihm⟩ := ih seen
      have hred : dedupFirstAux seen (a :: rest) = dedupFirstAux seen rest := by
        simp [dedupFirstAux, hc]
      rw [hred]
      refine ⟨ihn, fun x => ?_⟩
      rw [ihm x]
      constructor
      · rintro ⟨hx, hs⟩
        exact ⟨List.mem_cons_of_mem a hx, hs⟩
      · rintro ⟨hx, hs⟩
        rcases List.mem_cons.mp hx with rfl | hx2
        · exact absurd hc hs
        · exact ⟨hx2, hs⟩
    · obtain ⟨ihn, ihm⟩ := ih (a :: seen)
      have hred : dedupFirstAux seen (a :: rest) = a :: dedupFirstAux (a :: seen) rest := by
        simp [dedupFirstAux, hc]
      rw [hred]
      constructor
      · rw [List.nodup_cons]
        exact ⟨fun hmem => ((ihm a).mp hmem).2 (List.mem_cons_self a seen), ihn⟩
      · intro x
        rw [List.mem_cons, ihm x]
        constructor
        · rintro (rfl | ⟨hx, hs⟩)
          · exact ⟨List.mem_cons_self _ _, hc⟩
          · exact ⟨List.mem_cons_of_mem a hx, fun h => hs (List.mem_cons_of_mem a h)⟩
        · rintro ⟨hx, hs⟩
          rcases List.mem_cons.mp hx with rfl | hx2
          · exact Or.inl rfl
          · by_cases hxa : x = a
            · exact Or.inl hxa
            · exact Or.inr ⟨hx2, fun h =>
                (List.mem_cons.mp h).elim (fun h2 => hxa h2) (fun h2 => hs h2)⟩

/-- First-occurrence deduplication is an admissible set iteration order. -/
theorem validOrd_pyDedupFirst : Natl.validOrd pyDedupFirst := by
  intro l
  obtain ⟨hn, hm⟩ := dedupFirstAux_spec l []
  exact ⟨hn, fun x => by simpa using hm x⟩

/-- Reversed first-occurrence deduplication is admissible too. -/
theorem validOrd_revDedup : Natl.validOrd Ex.revDedup := by
  intro l
  obtain ⟨hn, hm⟩ := validOrd_pyDedupFirst l
  refine ⟨by simpa [Ex.revDedup] using hn, fun x => ?_⟩
  rw [Ex.revDedup]
  simp only [List.mem_reverse]
  exact hm x

/-! ## C8: the claim theorems -/

/-- C8 counterexample: both `pyDedupFirst` and its reversal realise
admissible iteration orders of the Python `set` in
`parse_nationality_prompt_output` (which order occurs depends on the
per-process hash seed), yet on the same candidate list — one candidate
asserting `{FRA, ITA}` — the two runs produce `VerificationResult`
records that are not identical: the `unverified_nationalities` lists
carry the same codes in different orders. -/
theorem c8_results_differ_across_hash_orders :
    Natl.validOrd pyDedupFirst ∧ Natl.validOrd Ex.revDedup ∧
    ¬ Natl.runVerify pyDedupFirst 10 "p" Ex.natTwoCodes =
      Natl.runVerify Ex.revDedup 10 "p" Ex.natTwoCodes ∧
    (Natl.runVerify pyDedupFirst 10 "p" Ex.natTwoCodes).unverified_nationalities
      = ["FRA", "ITA"] ∧
    (Natl.runVerify Ex.revDedup 10 "p" Ex.natTwoCodes).unverified_nationalities
      = ["ITA", "FRA"] :=
  ⟨validOrd_pyDedupFirst, validOrd_revDedup, by decide, by decide, by decide⟩

/-- C8 amended: with a fixed candidate list and deterministic extractor
output, two runs of the nationality pipeline agree on the verification
level, outcome, scanned count, person name and on the *sets* of verified
and unverified codes, for any two admissible iteration orders of the
Python `set` of codes; only the order in which the code lists are
emitted may differ between runs (with a fixed hash seed, i.e. the same
iteration order, runs are identical since the pipeline is a pure
function of its inputs). -/
theorem c8_identical_up_to_code_order (ord1 ord2 : List String → List String)
    (h1 : Natl.validOrd ord1) (h2 : Natl.validOrd ord2)
    (maxScans : Nat) (person : String) (cands : List Natl.Cand) :
    (Natl.runVerify ord1 maxScans person cands).person_name =
      (Natl.runVerify ord2 maxScans person cands).person_name ∧
    (Natl.runVerify ord1 maxScans person cands).verified =
      (Natl.runVerify ord2 maxScans person cands).verified ∧
    (Natl.runVerify ord1 maxScans person cands).corroboration_outcome =
      (Natl.runVerify ord2 maxScans person cands).corroboration_outcome ∧
    (Natl.runVerify ord1 maxScans person cands).scanned =
      (Natl.runVerify ord2 maxScans person cands).scanned ∧
    (∀ code, code ∈ (Natl.runVerify ord1 maxScans person cands).nationalities ↔
      code ∈ (Natl.runVerify ord2 maxScans person cands).nationalities) ∧
    (∀ code, code ∈ (Natl.runVerify ord1 maxScans person cands).unverified_nationalities ↔
      code ∈ (Natl.runVerify ord2 maxScans person cands).unverified_nationalities) := by
  by_cases hne : (cands.filter (·.personName == person)).isEmpty
  · have e1 : Natl.runVerify ord1 maxScans person cands = Natl.emptyResult person := by
      rw [Natl.runVerify]
      simp [hne]
    have e2 : Natl.runVerify ord2 maxScans person cands = Natl.emptyResult person := by
      rw [Natl.runVerify]
      simp [hne]
    rw [e1, e2]
    exact ⟨rfl, rfl, rfl, rfl, fun code => Iff.rfl, fun code => Iff.rfl⟩
  · obtain ⟨hs, hn1, hn2, hR⟩ := natLoop_agreement ord1 ord2 h1 h2
      ((cands.filter (·.personName == person)).take maxScans) [] [] 0
      (by simp) (by simp) (fun code => rfl)
    have e1 : Natl.runVerify ord1 maxScans person cands =
        Natl.decide_outcome person
          (Natl.scanLoop ord1 ((cands.filter (·.personName == person)).take maxScans) [] 0).1
          (Natl.scanLoop ord1 ((cands.filter (·.personName == person)).take maxScans) [] 0).2 := by
      rw [Natl.runVerify]
      simp [hne]
    have e2 : Natl.runVerify ord2 maxScans person cands =
        Natl.decide_outcome person
          (Natl.scanLoop ord2 ((cands.filter (·.personName == person)).take maxScans) [] 0).1
          (Natl.scanLoop ord2 ((cands.filter (·.personName == person)).take maxScans) [] 0).2 := by
      rw [Natl.runVerify]
      simp [hne]
    rw [e1, e2]
    obtain ⟨hv, ho, -, hmv, hmu⟩ := natDecide_agreement person
      (Natl.scanLoop ord1 ((cands.filter (·.personName == person)).take maxScans) [] 0).1
      (Natl.scanLoop ord2 ((cands.filter (·.personName == person)).take maxScans) [] 0).1
      (Natl.scanLoop ord1 ((cands.filter (·.personName == person)).take maxScans) [] 0).2
      hn1 hn2 hR
    refine ⟨rfl, hv, ho, ?_, hmv, hmu⟩
    simp only [Natl.decide_outcome, hs]

/-- Witness for `c8_identical_up_to_code_order` on the two-code input and
the two concrete admissible orders. -/
theorem c8_identical_up_to_code_order_witness :
    (Natl.runVerify pyDedupFirst 10 "p" Ex.natTwoCodes).verified =
      (Natl.runVerify Ex.revDedup 10 "p" Ex.natTwoCodes).verified ∧
    (Natl.runVerify pyDedupFirst 10 "p" Ex.natTwoCodes).corroboration_outcome =
      (Natl.runVerify Ex.revDedup 10 "p" Ex.natTwoCodes).corroboration_outcome ∧
    ∀ code, code ∈ (Natl.runVerify pyDedupFirst 10 "p"
        Ex.natTwoCodes).unverified_nationalities ↔
      code ∈ (Natl.runVerify Ex.revDedup 10 "p" Ex.natTwoCodes).unverified_nationalities := by
  obtain ⟨-, hv, ho, -, -, hmu⟩ := c8_identical_up_to_code_order pyDedupFirst Ex.revDedup
    validOrd_pyDedupFirst validOrd_revDedup 10 "p" Ex.natTwoCodes
  exact ⟨hv, ho, hmu⟩

end SearchAgent

namespace SearchAgent

/-- Witness for `c10_deceased_without_year_is_inert` at a concrete
yearless deceased claim and a concrete in-range field year. -/
theorem c10_deceased_without_year_is_inert_witness :
    (Death.scanLoop [Ex.deathNoYear] [] [] 0 = Death.scanLoop [] [] [] 1 ∧
      Death.scanLoop [Ex.deathNoYear] [] [] 0 =
        Death.scanLoop [{ Ex.deathNoYear with status := "unknown" }] [] [] 0) ∧
    (1600 ≤ 1950 ∧ 1950 ≤ 2099) :=
  ⟨c10_deceased_without_year_is_inert.2 Ex.deathNoYear [] [] [] 0 (by decide) (by decide)
      (by decide),
    c10_deceased_without_year_is_inert.1 "deceased" (some 1950) none 1950 (by decide)⟩

end SearchAgent
